import Mathlib

/-!
Verification of the resume-search shortlist pipeline
(`ml-service/app/agents/*.py`) against its natural-language specification.

Python strings are modelled as `String` / `List Char`; Python floats as `ℚ`
(exact arithmetic), except for the cosine-similarity helper where the square
root forces `ℝ`; Python dicts as insertion-ordered association lists; Python
exceptions as `Except`.  Each definition is a direct translation of the named
source function.
-/

set_option maxRecDepth 10000

/-! ## Python primitives used by the source -/

/-- Python whitespace for `str.strip()` / `\s` (ASCII fragment). -/
def pyIsSpace (c : Char) : Bool :=
  c = ' ' || c = '\t' || c = '\n' || c = '\r' || c = '\x0b' || c = '\x0c'

/-- `str.lstrip` (by predicate) on a character list. -/
def pyDropLeading (p : Char → Bool) (l : List Char) : List Char :=
  l.dropWhile p

/-- `str.rstrip` (by predicate) on a character list. -/
def pyDropTrailing (p : Char → Bool) (l : List Char) : List Char :=
  List.rdropWhile p l

/-- `str.strip()` on a character list. -/
def pyStripChars (l : List Char) : List Char :=
  pyDropTrailing pyIsSpace (pyDropLeading pyIsSpace l)

/-- `str.strip()` on a string. -/
def pyStrip (s : String) : String :=
  String.mk (pyStripChars s.data)

/-- `str.lower()` (ASCII fragment, matching `Char.toLower`). -/
def pyLowerChars (l : List Char) : List Char :=
  l.map Char.toLower

/-- The trailing-punctuation set of `normalize_skill`: `".,;:"`. -/
def pyIsTrailPunct (c : Char) : Bool :=
  c = '.' || c = ',' || c = ';' || c = ':'

/-- Python `in` on strings (substring test). -/
def pyIn (needle hay : String) : Bool :=
  decide (needle.data <:+: hay.data)

/-! ## `tools.py` : skill normalization -/

/-- `SKILL_ALIASES` from `app/agents/tools.py`. -/
def SKILL_ALIASES : List (String × String) :=
  [("ml", "machine learning"), ("js", "javascript"), ("ts", "typescript"),
   ("py", "python"), ("c#", "csharp"), ("c sharp", "csharp"), ("c++", "cpp"),
   ("golang", "go"), ("dl", "deep learning"), ("nlp", "natural language processing"),
   ("cv", "computer vision"), ("ai", "artificial intelligence"),
   ("llm", "large language models"), ("llms", "large language models"),
   ("genai", "generative ai"), ("gen ai", "generative ai"),
   ("sklearn", "scikit-learn"), ("scikit learn", "scikit-learn"),
   ("tf", "tensorflow"), ("react.js", "react"), ("reactjs", "react"),
   ("vue.js", "vue"), ("vuejs", "vue"), ("angular.js", "angular"),
   ("angularjs", "angular"), ("next.js", "nextjs"), ("node.js", "nodejs"),
   ("node js", "nodejs"), ("node", "nodejs"), ("express.js", "express"),
   ("expressjs", "express"), ("fast api", "fastapi"),
   ("postgres", "postgresql"), ("pg", "postgresql"), ("mongo", "mongodb"),
   ("amazon web services", "aws"), ("gcp", "google cloud platform"),
   ("google cloud", "google cloud platform"), ("k8s", "kubernetes"),
   ("html5", "html"), ("css3", "css")]

/-- `raw.strip().lower().rstrip(".,;:")` from `normalize_skill`. -/
def cleanSkill (raw : String) : String :=
  String.mk (pyDropTrailing pyIsTrailPunct (pyLowerChars (pyStripChars raw.data)))

/-- `normalize_skill` from `app/agents/tools.py`:
strip, lowercase, trim trailing `".,;:"`, then alias substitution. -/
def normalize_skill (raw : String) : String :=
  let cleaned := cleanSkill raw
  ((SKILL_ALIASES.lookup cleaned).getD cleaned)

/-- `normalize_skills` from `app/agents/tools.py`: normalize each entry,
drop empties, deduplicate keeping first occurrence. -/
def normalize_skills (raw_list : List String) : List String :=
  let step := fun (acc : List String × List String) (raw : String) =>
    let canonical := normalize_skill raw
    if canonical ≠ "" ∧ canonical ∉ acc.1 then
      (acc.1 ++ [canonical], acc.2 ++ [canonical])
    else acc
  (raw_list.foldl step ([], [])).2

/-! ## Character-level facts used for skill-normalization idempotence -/

theorem char_toNat_ofNat {n : ℕ} (h : n < 55296) : (Char.ofNat n).toNat = n := by
  have hv : n.isValidChar := Or.inl h
  rw [Char.ofNat, dif_pos hv]
  rfl

theorem char_toLower_idem (c : Char) :
    Char.toLower (Char.toLower c) = Char.toLower c := by
  simp only [Char.toLower]
  by_cases h : c.toNat ≥ 65 ∧ c.toNat ≤ 90
  · rw [if_pos h]
    have h2 : (Char.ofNat (c.toNat + 32)).toNat = c.toNat + 32 :=
      char_toNat_ofNat (by omega)
    rw [if_neg]
    rw [h2]
    omega
  · rw [if_neg h, if_neg h]

theorem pyIsSpace_toLower (c : Char) :
    pyIsSpace (Char.toLower c) = pyIsSpace c := by
  simp only [Char.toLower]
  by_cases h : c.toNat ≥ 65 ∧ c.toNat ≤ 90
  · rw [if_pos h]
    have hup : ∀ d : Char, 65 ≤ d.toNat → pyIsSpace d = false := by
      intro d hd
      have h1 : d ≠ ' ' := by intro he; rw [he] at hd; exact absurd hd (by decide)
      have h2 : d ≠ '\t' := by intro he; rw [he] at hd; exact absurd hd (by decide)
      have h3 : d ≠ '\n' := by intro he; rw [he] at hd; exact absurd hd (by decide)
      have h4 : d ≠ '\r' := by intro he; rw [he] at hd; exact absurd hd (by decide)
      have h5 : d ≠ '\x0b' := by intro he; rw [he] at hd; exact absurd hd (by decide)
      have h6 : d ≠ '\x0c' := by intro he; rw [he] at hd; exact absurd hd (by decide)
      simp [pyIsSpace, h1, h2, h3, h4, h5, h6]
    rw [hup _ (by rw [char_toNat_ofNat (by omega)]; omega), hup c (by omega)]
  · rw [if_neg h]

theorem head?_of_isPrefix {α : Type} {t l : List α} (h : t <+: l) {c : α}
    (hc : t.head? = some c) : l.head? = some c := by
  obtain ⟨r, rfl⟩ := h
  cases t with
  | nil => simp at hc
  | cons a t2 => exact hc

/-- The cleaned form of a skill has no leading whitespace. -/
theorem cleanSkill_head_not_space (raw : String) {c : Char}
    (h : (cleanSkill raw).data.head? = some c) : pyIsSpace c = false := by
  unfold cleanSkill pyDropTrailing pyLowerChars pyStripChars pyDropLeading at h
  have hd : (List.rdropWhile pyIsTrailPunct
      ((List.rdropWhile pyIsSpace (raw.data.dropWhile pyIsSpace)).map Char.toLower)).head? =
      some c := h
  have h1 := head?_of_isPrefix (List.rdropWhile_prefix _ _) hd
  rw [List.head?_map] at h1
  cases h2 : (List.rdropWhile pyIsSpace (raw.data.dropWhile pyIsSpace)).head? with
  | none => rw [h2] at h1; simp at h1
  | some c0 =>
    rw [h2] at h1
    have h1 : some (Char.toLower c0) = some c := h1
    have h3 := head?_of_isPrefix (List.rdropWhile_prefix _ _) h2
    have h4 : ¬ pyIsSpace c0 := by
      have hne : raw.data.dropWhile pyIsSpace ≠ [] := by
        intro hn; rw [hn] at h3; simp at h3
      have h5 := List.head_dropWhile_not pyIsSpace raw.data hne
      rw [List.head?_eq_head hne] at h3
      rw [Option.some_inj] at h3
      rw [h3] at h5
      simp [h5]
    obtain rfl : Char.toLower c0 = c := by injection h1
    rw [pyIsSpace_toLower]
    exact Bool.eq_false_iff.mpr h4

/-- If the cleaned form of a skill has no trailing whitespace, cleaning is
idempotent on it (trailing punctuation may expose whitespace, so this can
fail in general). -/
theorem cleanSkill_fixed (raw : String)
    (hws : ∀ c, (cleanSkill raw).data.getLast? = some c → pyIsSpace c = false) :
    cleanSkill (cleanSkill raw) = cleanSkill raw := by
  have hA1 : List.dropWhile pyIsSpace (cleanSkill raw).data = (cleanSkill raw).data := by
    rw [List.dropWhile_eq_self_iff]
    intro hl hp
    have hh : (cleanSkill raw).data.head? = some ((cleanSkill raw).data.get ⟨0, hl⟩) := by
      rw [List.head?_eq_getElem?, List.getElem?_eq_getElem hl]
      rw [List.get_eq_getElem]
    have := cleanSkill_head_not_space raw hh
    rw [this] at hp
    exact Bool.false_ne_true hp
  have hA2 : List.rdropWhile pyIsSpace (cleanSkill raw).data = (cleanSkill raw).data := by
    rw [List.rdropWhile_eq_self_iff]
    intro hl hp
    have hg : (cleanSkill raw).data.getLast? =
        some ((cleanSkill raw).data.getLast hl) := List.getLast?_eq_getLast _ hl
    have := hws _ hg
    rw [this] at hp
    exact Bool.false_ne_true hp
  have hB : ((cleanSkill raw).data).map Char.toLower = (cleanSkill raw).data := by
    have hmem : ∀ x ∈ (cleanSkill raw).data, Char.toLower x = x := by
      intro x hx
      have hx2 : x ∈ (pyLowerChars (pyStripChars raw.data)) := by
        have hpre : (cleanSkill raw).data <+: pyLowerChars (pyStripChars raw.data) :=
          List.rdropWhile_prefix _ _
        exact hpre.sublist.subset hx
      obtain ⟨y, _, rfl⟩ := List.mem_map.mp hx2
      exact char_toLower_idem y
    have hmap : List.map Char.toLower (cleanSkill raw).data =
        List.map id (cleanSkill raw).data :=
      List.map_congr_left (fun a ha => hmem a ha)
    rw [hmap, List.map_id]
  have hC : List.rdropWhile pyIsTrailPunct (cleanSkill raw).data = (cleanSkill raw).data :=
    List.rdropWhile_idempotent pyIsTrailPunct (pyLowerChars (pyStripChars raw.data))
  show String.mk (List.rdropWhile pyIsTrailPunct
      ((List.rdropWhile pyIsSpace
        (List.dropWhile pyIsSpace (cleanSkill raw).data)).map Char.toLower)) = cleanSkill raw
  rw [hA1, hA2, hB, hC]

theorem lookup_mem_of_some {l : List (String × String)} {k v : String}
    (h : l.lookup k = some v) : (k, v) ∈ l := by
  induction l with
  | nil => simp at h
  | cons p rest ih =>
    rw [List.lookup_cons] at h
    rcases hk : (k == p.1) with _ | _
    · rw [hk] at h
      exact List.mem_cons_of_mem _ (ih h)
    · rw [hk] at h
      obtain rfl : p.2 = v := by injection h
      have hkp : k = p.1 := by simpa using hk
      have hp : (k, p.2) = p := by rw [hkp]
      rw [hp]
      exact List.mem_cons_self _ _

/-- Every alias value of `SKILL_ALIASES` is a fixed point of `normalize_skill`
(no alias value is itself an alias key, and all are already clean). -/
theorem alias_values_fixed :
    ∀ p ∈ SKILL_ALIASES, normalize_skill p.2 = p.2 := by decide

/-- Claim C9 (counterexample): `normalize_skill` is NOT idempotent on every
input.  On `"java ."` the trailing-punctuation trim exposes a trailing space
(`normalize_skill "java ." = "java "`), and a second application strips it,
giving `"java"`. -/
theorem c9_normalize_not_idempotent :
    normalize_skill (normalize_skill ("java .")) ≠ normalize_skill ("java .") := by
  decide

/-- Claim C9 (amended): `normalize_skill` is idempotent on every input whose
cleaned form (strip, lowercase, trim trailing `".,;:"`) has no trailing
whitespace — in general idempotence fails only when trimming trailing
punctuation exposes whitespace. -/
theorem c9_normalize_idempotent_no_trailing_ws (x : String)
    (hws : ((cleanSkill x).data.getLast?).all (fun c => ! pyIsSpace c) = true) :
    normalize_skill (normalize_skill x) = normalize_skill x := by
  have hws2 : ∀ c, (cleanSkill x).data.getLast? = some c → pyIsSpace c = false := by
    intro c hc
    rw [hc] at hws
    simpa using hws
  cases h : SKILL_ALIASES.lookup (cleanSkill x) with
  | some v =>
    have h1 : normalize_skill x = v := by
      show (SKILL_ALIASES.lookup (cleanSkill x)).getD (cleanSkill x) = v
      rw [h]
      rfl
    rw [h1]
    exact alias_values_fixed (cleanSkill x, v) (lookup_mem_of_some h)
  | none =>
    have h1 : normalize_skill x = cleanSkill x := by
      show (SKILL_ALIASES.lookup (cleanSkill x)).getD (cleanSkill x) = cleanSkill x
      rw [h]
      rfl
    rw [h1]
    show (SKILL_ALIASES.lookup (cleanSkill (cleanSkill x))).getD
      (cleanSkill (cleanSkill x)) = cleanSkill x
    rw [cleanSkill_fixed x hws2, h]
    rfl

/-- Witness for the amended C9 theorem at the concrete input `"K8s"`
(cleaned form `"k8s"`, aliased to `"kubernetes"`). -/
theorem c9_witness :
    (((cleanSkill ("K8s")).data.getLast?).all (fun c => ! pyIsSpace c) = true) ∧
    normalize_skill (normalize_skill ("K8s")) = normalize_skill ("K8s") :=
  ⟨by decide, c9_normalize_idempotent_no_trailing_ws ("K8s") (by decide)⟩

/-! ## `tools.py` : `_cosine_similarity`

The helper works on float vectors; it is modelled over `ℝ` because the
magnitudes take square roots. -/

/-- `sum(x * y for x, y in zip(a, b))`. -/
def dotProd (a b : List ℝ) : ℝ :=
  ((a.zip b).map (fun p => p.1 * p.2)).sum

/-- `sum(x * x for x in a)` — the squared magnitude. -/
def sumSq (a : List ℝ) : ℝ :=
  (a.map (fun x => x * x)).sum

/-- `_cosine_similarity` from `app/agents/tools.py`: `0.0` on length mismatch,
otherwise `dot / denom` guarded by `denom > 0`. -/
noncomputable def _cosine_similarity (a b : List ℝ) : ℝ :=
  if a.length ≠ b.length then 0
  else
    let dot := dotProd a b
    let mag_a := Real.sqrt (sumSq a)
    let mag_b := Real.sqrt (sumSq b)
    let denom := mag_a * mag_b
    if 0 < denom then dot / denom else 0

theorem sumSq_nonneg (a : List ℝ) : 0 ≤ sumSq a := by
  unfold sumSq
  apply List.sum_nonneg
  intro x hx
  obtain ⟨y, _, rfl⟩ := List.mem_map.mp hx
  exact mul_self_nonneg y

/-- Claim C10: the cosine-similarity helper is total and never divides by
zero: it returns `0` whenever the vectors have different lengths or either
magnitude is zero, and otherwise returns the dot product divided by the
product of the magnitudes. -/
theorem c10_cosine_total (a b : List ℝ) :
    (a.length ≠ b.length → _cosine_similarity a b = 0) ∧
    (Real.sqrt (sumSq a) * Real.sqrt (sumSq b) = 0 → _cosine_similarity a b = 0) ∧
    (a.length = b.length → Real.sqrt (sumSq a) ≠ 0 → Real.sqrt (sumSq b) ≠ 0 →
      _cosine_similarity a b =
        dotProd a b / (Real.sqrt (sumSq a) * Real.sqrt (sumSq b))) := by
  refine ⟨fun hne => ?_, fun hz => ?_, fun hlen ha hb => ?_⟩
  · unfold _cosine_similarity
    rw [if_pos hne]
  · unfold _cosine_similarity
    by_cases hne : a.length ≠ b.length
    · rw [if_pos hne]
    · rw [if_neg hne]
      show (if 0 < Real.sqrt (sumSq a) * Real.sqrt (sumSq b) then _ else (0:ℝ)) = 0
      rw [if_neg]
      rw [hz]
      exact lt_irrefl 0
  · unfold _cosine_similarity
    rw [if_neg (by rw [hlen]; exact fun h => h rfl)]
    show (if 0 < Real.sqrt (sumSq a) * Real.sqrt (sumSq b) then
        dotProd a b / (Real.sqrt (sumSq a) * Real.sqrt (sumSq b)) else (0:ℝ)) = _
    rw [if_pos]
    have h1 : 0 < Real.sqrt (sumSq a) :=
      lt_of_le_of_ne (Real.sqrt_nonneg _) (Ne.symm ha)
    have h2 : 0 < Real.sqrt (sumSq b) :=
      lt_of_le_of_ne (Real.sqrt_nonneg _) (Ne.symm hb)
    exact mul_pos h1 h2

/-- Witness for the C10 theorem at the concrete vectors `[1]`, `[1]`. -/
theorem c10_witness :
    _cosine_similarity [(1:ℝ)] [(1:ℝ)] =
      dotProd [(1:ℝ)] [(1:ℝ)] /
        (Real.sqrt (sumSq [(1:ℝ)]) * Real.sqrt (sumSq [(1:ℝ)])) :=
  (c10_cosine_total [(1:ℝ)] [(1:ℝ)]).2.2 rfl
    (by rw [show sumSq [(1:ℝ)] = 1 from by simp [sumSq], Real.sqrt_one]; exact one_ne_zero)
    (by rw [show sumSq [(1:ℝ)] = 1 from by simp [sumSq], Real.sqrt_one]; exact one_ne_zero)

/-! ## `retriever_agent.py` : the combined query text (C7)

`retriever_agent_node` builds `query_text` and `skills_query` and passes
`skills_query` to BOTH `lexical_search_chunks` and `vector_search_chunks`. -/

/-- The `skills_query` value of `retriever_agent_node` — the query text
actually passed to both the lexical and the vector chunk search. -/
def retrieverQueryText (must_have nice_to_have : List String) (raw_query : String) : String :=
  let all_skills := must_have ++ nice_to_have
  let query_text := if raw_query ≠ "" then raw_query
    else String.intercalate (", ") all_skills
  if all_skills ≠ [] then
    ("Skills: ") ++ String.intercalate ("; ") all_skills ++ (".")
  else query_text

/-- Claim C7 (counterexample): with a non-empty `raw_query` and a non-empty
skill union, the query passed to the searches is the skills form, NOT
`raw_query` as the claim states. -/
theorem c7_raw_query_ignored :
    retrieverQueryText ["python"] [] ("find me devs") ≠ ("find me devs") ∧
    retrieverQueryText ["python"] [] ("find me devs") = ("Skills: python.") := by
  constructor
  · decide
  · rfl

/-- Claim C7 (amended): the combined query text passed to both searches is
`"Skills: " ++ join("; ", must_have ++ nice_to_have) ++ "."` whenever the
skill union is non-empty (regardless of `raw_query`), and `raw_query` only
when the skill union is empty. -/
theorem c7_query_text_characterization (mh nth : List String) (rq : String) :
    (mh ++ nth ≠ [] → retrieverQueryText mh nth rq =
      ("Skills: ") ++ String.intercalate ("; ") (mh ++ nth) ++ (".")) ∧
    (mh ++ nth = [] → retrieverQueryText mh nth rq = rq) := by
  constructor
  · intro h
    show (if mh ++ nth ≠ [] then _ else _) = _
    rw [if_pos h]
  · intro h
    show (if mh ++ nth ≠ [] then _ else
      if rq ≠ "" then rq else String.intercalate (", ") (mh ++ nth)) = rq
    rw [if_neg (by simpa using h), h]
    by_cases hrq : rq = ""
    · rw [if_neg (by simpa using hrq), hrq]
      rfl
    · rw [if_pos hrq]

/-- Witness for the amended C7 theorem at a concrete input. -/
theorem c7_witness :
    retrieverQueryText ["python"] ["aws"] ("query text") =
      ("Skills: ") ++ String.intercalate ("; ") (["python"] ++ ["aws"]) ++ (".") :=
  (c7_query_text_characterization ["python"] ["aws"] ("query text")).1 (by decide)

/-! ## A stable sort modelling Python `list.sort`

Python's `list.sort` is stable; a stable sort with respect to a total
preorder is uniquely determined, so a structurally recursive stable
insertion sort is extensionally the same function (and, unlike
`List.mergeSort`, reduces in the kernel). -/

/-- Insert `x` after every element `y` with `le y x` (stable insertion). -/
def insertStable {α : Type} (le : α → α → Bool) (x : α) : List α → List α
  | [] => [x]
  | y :: ys => if le y x then y :: insertStable le x ys else x :: y :: ys

/-- Stable sort with respect to the Bool relation `le`. -/
def pySort {α : Type} (le : α → α → Bool) (l : List α) : List α :=
  l.foldl (fun acc x => insertStable le x acc) []

theorem insertStable_perm {α : Type} (le : α → α → Bool) (x : α) (l : List α) :
    List.Perm (insertStable le x l) (x :: l) := by
  induction l with
  | nil => exact List.Perm.refl _
  | cons y ys ih =>
    unfold insertStable
    by_cases h : le y x
    · rw [if_pos h]
      exact List.Perm.trans (List.Perm.cons _ ih) (List.Perm.swap _ _ _)
    · rw [if_neg h]

theorem pySort_aux_perm {α : Type} (le : α → α → Bool) :
    ∀ (l acc : List α),
      List.Perm (l.foldl (fun acc x => insertStable le x acc) acc) (acc ++ l) := by
  intro l
  induction l with
  | nil => intro acc; simp
  | cons x xs ih =>
    intro acc
    have h1 := ih (insertStable le x acc)
    have h2 : List.Perm (insertStable le x acc ++ xs) ((x :: acc) ++ xs) :=
      (insertStable_perm le x acc).append_right xs
    have h3 : List.Perm ((x :: acc) ++ xs) (acc ++ x :: xs) := by
      show List.Perm (x :: (acc ++ xs)) (acc ++ x :: xs)
      exact List.perm_middle.symm
    exact ((h1.trans h2).trans h3)

theorem pySort_perm {α : Type} (le : α → α → Bool) (l : List α) :
    List.Perm (pySort le l) l :=
  pySort_aux_perm le l []

theorem insertStable_pairwise {α : Type} {le : α → α → Bool}
    (htrans : ∀ a b c, le a b = true → le b c = true → le a c = true)
    (htotal : ∀ a b, le a b = true ∨ le b a = true) (x : α) :
    ∀ l : List α, l.Pairwise (fun a b => le a b = true) →
      (insertStable le x l).Pairwise (fun a b => le a b = true) := by
  intro l
  induction l with
  | nil => intro _; simp [insertStable]
  | cons y ys ih =>
    intro h
    rw [List.pairwise_cons] at h
    obtain ⟨hy, hys⟩ := h
    unfold insertStable
    by_cases hxy : le y x
    · rw [if_pos hxy]
      rw [List.pairwise_cons]
      constructor
      · intro z hz
        have hz2 : z ∈ x :: ys := (insertStable_perm le x ys).mem_iff.mp hz
        rcases List.mem_cons.mp hz2 with rfl | hz3
        · exact hxy
        · exact hy z hz3
      · exact ih hys
    · rw [if_neg hxy]
      have hxy2 : le x y = true := by
        rcases htotal x y with h1 | h1
        · exact h1
        · exact absurd h1 hxy
      rw [List.pairwise_cons]
      constructor
      · intro z hz
        rcases List.mem_cons.mp hz with rfl | hz2
        · exact hxy2
        · exact htrans x y z hxy2 (hy z hz2)
      · rw [List.pairwise_cons]
        exact And.intro hy hys

theorem pySort_pairwise {α : Type} {le : α → α → Bool}
    (htrans : ∀ a b c, le a b = true → le b c = true → le a c = true)
    (htotal : ∀ a b, le a b = true ∨ le b a = true) (l : List α) :
    (pySort le l).Pairwise (fun a b => le a b = true) := by
  suffices h : ∀ (l acc : List α), acc.Pairwise (fun a b => le a b = true) →
      (l.foldl (fun acc x => insertStable le x acc) acc).Pairwise
        (fun a b => le a b = true) by
    exact h l [] (by simp)
  intro l
  induction l with
  | nil => intro acc h; exact h
  | cons x xs ih =>
    intro acc h
    exact ih _ (insertStable_pairwise htrans htotal x acc h)

/-! ## Shared data model (`state.py`) and configuration (`agents/config.py`) -/

/-- `RetrievalHit` from `app/agents/state.py` (chunk text as `List Char`). -/
structure RetrievalHit where
  chunk_id : String := ""
  candidate_id : String
  section_type : String := ""
  chunk_text : List Char := []
  score : ℚ := 0
  rank : ℕ := 0
  source : String := ""
  matched_skills : List String := []
deriving DecidableEq

/-- `FusedCandidate` from `app/agents/state.py`. -/
structure FusedCandidate where
  candidate_id : String
  rrf_score : ℚ
  dense_rank : Option ℕ
  sparse_rank : Option ℕ
  matched_skills : List String
  matched_count : ℕ
deriving DecidableEq

/-- The environment-variable defaults of `app/agents/config.py`. -/
structure Config where
  K_DENSE : ℕ := 300
  K_SPARSE : ℕ := 300
  K_POOL : ℕ := 500
  RRF_K : ℕ := 60
  MAX_CHUNKS_PER_CANDIDATE : ℕ := 5
  MAX_CHARS_PER_CHUNK : ℕ := 800
  MAX_TOTAL_CHARS_PER_CANDIDATE : ℕ := 2500
  K_RERANK : ℕ := 100
  W_RRF : ℚ := 35 / 100
  W_CE : ℚ := 65 / 100
  MIN_RELEVANCE_SCORE : ℚ := 20
  HARD_FILTER_ENABLED : Bool := true
  MAX_RESULTS : ℕ := 25

/-- All config defaults. -/
def defaultConfig : Config := {}

/-! ## `fusion.py` : Reciprocal Rank Fusion (C5)

`fusion_node` iterates over `all_ids = set(sparse_ranks) | set(dense_ranks)`,
a Python set whose iteration order is not a function of the inputs (string
hashing is randomized per process).  The model therefore takes the
enumeration order of that set as an explicit argument `all_ids`. -/

/-- In-place value update of an insertion-ordered dict. -/
def assocSet (l : List (String × ℕ)) (k : String) (v : ℕ) : List (String × ℕ) :=
  l.map (fun p => if p.1 = k then (k, v) else p)

/-- `_aggregate_to_resume_ranks` from `app/agents/fusion.py`: keep each
candidate's best (lowest) chunk rank. -/
def _aggregate_to_resume_ranks (results : List RetrievalHit) : List (String × ℕ) :=
  results.foldl (fun resume_ranks r =>
    match resume_ranks.lookup r.candidate_id with
    | none => resume_ranks ++ [(r.candidate_id, r.rank)]
    | some old =>
      if r.rank < old then assocSet resume_ranks r.candidate_id r.rank
      else resume_ranks) []

/-- The body of the `for cid in all_ids` loop of `fusion_node`. -/
def fuseOne (k : ℚ) (sparse_results : List RetrievalHit)
    (sparse_ranks dense_ranks : List (String × ℕ)) (cid : String) : FusedCandidate :=
  let sr := sparse_ranks.lookup cid
  let dr := dense_ranks.lookup cid
  let rrf1 : ℚ := match sr with | some r => 1 / (k + r) | none => 0
  let rrf2 : ℚ := match dr with | some r => 1 / (k + r) | none => 0
  let matched_skills :=
    ((sparse_results.find? (fun r => r.candidate_id = cid)).map
      (fun r => r.matched_skills)).getD []
  ⟨cid, rrf1 + rrf2, dr, sr, matched_skills, matched_skills.length⟩

/-- `fusion_node` from `app/agents/fusion.py`, parametrized by the iteration
order `all_ids` of the candidate-id set. -/
def fusion_node (cfg : Config) (sparse_results dense_results : List RetrievalHit)
    (all_ids : List String) : List FusedCandidate :=
  let sparse_ranks := _aggregate_to_resume_ranks sparse_results
  let dense_ranks := _aggregate_to_resume_ranks dense_results
  let fused := all_ids.map
    (fuseOne (cfg.RRF_K : ℚ) sparse_results sparse_ranks dense_ranks)
  (pySort (fun a b => b.rrf_score ≤ a.rrf_score) fused).take cfg.K_POOL

/-- `all_ids` is a valid enumeration of
`set(sparse_ranks.keys()) | set(dense_ranks.keys())`. -/
def isEnumOf (sparse_results dense_results : List RetrievalHit)
    (ids : List String) : Prop :=
  ids.Nodup ∧
  (∀ c ∈ ids, (∃ h ∈ sparse_results, h.candidate_id = c) ∨
    (∃ h ∈ dense_results, h.candidate_id = c)) ∧
  (∀ h ∈ sparse_results, h.candidate_id ∈ ids) ∧
  (∀ h ∈ dense_results, h.candidate_id ∈ ids)

instance (s d : List RetrievalHit) (ids : List String) :
    Decidable (isEnumOf s d ids) := by
  unfold isEnumOf
  infer_instance

/-- The sparse input of the C5 counterexample: one lexical hit for
candidate `"b"` at rank 1. -/
def c5sparse : List RetrievalHit := [⟨"", "b", "", [], 0, 1, "", []⟩]

/-- The dense input of the C5 counterexample: one vector hit for
candidate `"a"` at rank 1. -/
def c5dense : List RetrievalHit := [⟨"", "a", "", [], 0, 1, "", []⟩]

/-- Claim C5 (counterexample): fusion output depends on the iteration order
of the candidate-id set (both orders given here are valid enumerations of
the same set), so two runs on identical `sparse_results`/`dense_results` can
produce different output lists, and ties are NOT broken by candidate id
ascending (the enumeration `["b", "a"]` yields output order `b, a`). -/
theorem c5_fusion_order_dependent :
    isEnumOf c5sparse c5dense ["a", "b"] ∧
    isEnumOf c5sparse c5dense ["b", "a"] ∧
    fusion_node defaultConfig c5sparse c5dense ["a", "b"] ≠
      fusion_node defaultConfig c5sparse c5dense ["b", "a"] := by
  refine ⟨by decide, by decide, fun h => ?_⟩
  have e1 : (fusion_node defaultConfig c5sparse c5dense ["a", "b"]).map
      (fun f => f.candidate_id) = ["a", "b"] := by
    simp [c5sparse, c5dense, fusion_node, fuseOne, _aggregate_to_resume_ranks,
      pySort, insertStable, List.lookup, defaultConfig]
  have e2 : (fusion_node defaultConfig c5sparse c5dense ["b", "a"]).map
      (fun f => f.candidate_id) = ["b", "a"] := by
    simp [c5sparse, c5dense, fusion_node, fuseOne, _aggregate_to_resume_ranks,
      pySort, insertStable, List.lookup, defaultConfig]
  rw [h, e2] at e1
  exact absurd e1 (by decide)

/-- Claim C5 (amended): relative to the explicit set-iteration order,
`fusion_node` is a pure function; its output is sorted non-increasing by
`rrf_score` and capped at `K_POOL`.  Ties keep the set-iteration order
(string-hash dependent), not candidate-id ascending order. -/
theorem c5_fusion_sorted_capped (cfg : Config)
    (s d : List RetrievalHit) (ids : List String) :
    List.Pairwise (fun a b => b.rrf_score ≤ a.rrf_score) (fusion_node cfg s d ids) ∧
    (fusion_node cfg s d ids).length ≤ cfg.K_POOL := by
  constructor
  · have hs := @pySort_pairwise FusedCandidate
      (fun a b => decide (b.rrf_score ≤ a.rrf_score))
      (fun a b c h1 h2 => by
        rw [decide_eq_true_eq] at h1 h2 ⊢
        exact le_trans h2 h1)
      (fun a b => by
        rw [decide_eq_true_eq, decide_eq_true_eq]
        exact le_total b.rrf_score a.rrf_score)
      ((ids.map (fuseOne (cfg.RRF_K : ℚ) s (_aggregate_to_resume_ranks s)
        (_aggregate_to_resume_ranks d))))
    have hsub : List.Sublist (fusion_node cfg s d ids) (pySort
        (fun a b : FusedCandidate => decide (b.rrf_score ≤ a.rrf_score))
        ((ids.map (fuseOne (cfg.RRF_K : ℚ) s (_aggregate_to_resume_ranks s)
          (_aggregate_to_resume_ranks d))))) := List.take_sublist _ _
    exact ((hs.sublist hsub).imp (fun h => of_decide_eq_true h))
  · exact List.length_take_le _ _

/-! ## `evidence_agent.py` : bounded evidence packs (C3, C8)

`EvidenceItem.section` is called `sect` here (`section` is a Lean keyword);
snippets are `List Char`. -/

/-- `EvidenceItem` from `app/agents/state.py`. -/
structure EvidenceItem where
  chunk_id : String := ""
  sect : String := ""
  text_snippet : List Char := []
  why_matched : String := ""
deriving DecidableEq

/-- `EvidencePack` from `app/agents/state.py`. -/
structure EvidencePack where
  candidate_id : String
  evidence : List EvidenceItem := []
  highlights : List (List Char) := []
deriving DecidableEq

/-- The inner `for e in all_evidence: if e.chunk_id == chunk_id:
e.why_matched = "both"; break` loop — mark the first matching item. -/
def markBoth (cid : String) : List EvidenceItem → List EvidenceItem
  | [] => []
  | e :: rest =>
    if e.chunk_id = cid then ⟨e.chunk_id, e.sect, e.text_snippet, ("both")⟩ :: rest
    else e :: markBoth cid rest

/-- One iteration of the sparse dedup loop of
`_build_evidence_for_candidate`; state is `(seen_chunks, all_evidence)`. -/
def sparseStep (cfg : Config) (acc : List String × List EvidenceItem)
    (chunk : RetrievalHit) : List String × List EvidenceItem :=
  if chunk.chunk_id ∈ acc.1 then acc
  else (acc.1 ++ [chunk.chunk_id], acc.2 ++
    [⟨chunk.chunk_id, chunk.section_type,
      chunk.chunk_text.take cfg.MAX_CHARS_PER_CHUNK, ("sparse")⟩])

/-- The first dedup loop of `_build_evidence_for_candidate` (sparse chunks). -/
def addSparseChunks (cfg : Config) (sparse_chunks : List RetrievalHit) :
    List String × List EvidenceItem :=
  sparse_chunks.foldl (sparseStep cfg) ([], [])

/-- One iteration of the dense dedup loop: an already-seen chunk id is
re-tagged `"both"`, a new one appended as `"dense"`. -/
def denseStep (cfg : Config) (acc : List String × List EvidenceItem)
    (chunk : RetrievalHit) : List String × List EvidenceItem :=
  if chunk.chunk_id ∈ acc.1 then (acc.1, markBoth chunk.chunk_id acc.2)
  else (acc.1 ++ [chunk.chunk_id], acc.2 ++
    [⟨chunk.chunk_id, chunk.section_type,
      chunk.chunk_text.take cfg.MAX_CHARS_PER_CHUNK, ("dense")⟩])

/-- The second dedup loop of `_build_evidence_for_candidate` (dense chunks). -/
def addDenseChunks (cfg : Config) (start : List String × List EvidenceItem)
    (dense_chunks : List RetrievalHit) : List String × List EvidenceItem :=
  dense_chunks.foldl (denseStep cfg) start

/-- `match_order = {"both": 0, "sparse": 1, "dense": 2}` with default 3. -/
def matchOrder (w : String) : ℕ :=
  if w = "both" then 0 else if w = "sparse" then 1 else if w = "dense" then 2 else 3

/-- The sort key `(match_order, -len(text_snippet))`, ascending. -/
def evidenceLe (a b : EvidenceItem) : Bool :=
  matchOrder a.why_matched < matchOrder b.why_matched ||
  (matchOrder a.why_matched = matchOrder b.why_matched &&
    b.text_snippet.length ≤ a.text_snippet.length)

/-- The bounding loop of `_build_evidence_for_candidate`: at most
`MAX_CHUNKS_PER_CANDIDATE` items; on character overflow with more than 50
characters of budget left, truncate to the remaining budget, append `"..."`
and stop; otherwise stop. -/
def applyEvidenceBounds (cfg : Config) :
    List EvidenceItem → ℕ → ℕ → List EvidenceItem
  | [], _, _ => []
  | e :: rest, count, total_chars =>
    if count ≥ cfg.MAX_CHUNKS_PER_CANDIDATE then []
    else if total_chars + e.text_snippet.length > cfg.MAX_TOTAL_CHARS_PER_CANDIDATE then
      let remaining := cfg.MAX_TOTAL_CHARS_PER_CANDIDATE - total_chars
      if remaining > 50 then
        [⟨e.chunk_id, e.sect, e.text_snippet.take remaining ++ ("...").data,
          e.why_matched⟩]
      else []
    else e :: applyEvidenceBounds cfg rest (count + 1)
      (total_chars + e.text_snippet.length)

/-- `_build_evidence_for_candidate` from `app/agents/evidence_agent.py`. -/
def _build_evidence_for_candidate (cfg : Config) (candidate_id : String)
    (sparse_chunks dense_chunks : List RetrievalHit) : EvidencePack :=
  let phase := addDenseChunks cfg (addSparseChunks cfg sparse_chunks) dense_chunks
  let all_evidence := pySort evidenceLe phase.2
  let bounded := applyEvidenceBounds cfg all_evidence 0 0
  ⟨candidate_id, bounded, (bounded.take 3).map (fun e => e.text_snippet.take 100)⟩

theorem applyEvidenceBounds_bounds (cfg : Config) :
    ∀ (l : List EvidenceItem) (count total : ℕ),
      (applyEvidenceBounds cfg l count total).length ≤
        cfg.MAX_CHUNKS_PER_CANDIDATE - count ∧
      ((applyEvidenceBounds cfg l count total).map
        (fun e => e.text_snippet.length)).sum ≤
        (cfg.MAX_TOTAL_CHARS_PER_CANDIDATE - total) + 3 := by
  intro l
  induction l with
  | nil => intro count total; simp [applyEvidenceBounds]
  | cons e rest ih =>
    intro count total
    unfold applyEvidenceBounds
    by_cases h1 : count ≥ cfg.MAX_CHUNKS_PER_CANDIDATE
    · rw [if_pos h1]
      simp
    · rw [if_neg h1]
      rw [not_le] at h1
      by_cases h2 : total + e.text_snippet.length > cfg.MAX_TOTAL_CHARS_PER_CANDIDATE
      · rw [if_pos h2]
        by_cases h3 : cfg.MAX_TOTAL_CHARS_PER_CANDIDATE - total > 50
        · rw [if_pos h3]
          constructor
          · simp
            omega
          · simp
        · rw [if_neg h3]
          simp
      · rw [if_neg h2]
        rw [not_lt] at h2
        obtain ⟨ihl, ihs⟩ := ih (count + 1) (total + e.text_snippet.length)
        constructor
        · simp only [List.length_cons]
          omega
        · simp only [List.map_cons, List.sum_cons]
          omega

/-- Claim C3 (amended): every evidence pack has at most
`MAX_CHUNKS_PER_CANDIDATE` items, and the total snippet length is at most
`MAX_TOTAL_CHARS_PER_CANDIDATE + 3`: the truncation path cuts the snippet to
exactly the remaining budget and THEN appends `"..."`, so the stated bound
can be exceeded by exactly the three ellipsis characters; truncation fires
only when strictly more than 50 characters of budget remain. -/
theorem c3_evidence_bounds (cfg : Config) (cid : String)
    (sparse_chunks dense_chunks : List RetrievalHit) :
    (_build_evidence_for_candidate cfg cid sparse_chunks dense_chunks).evidence.length ≤
      cfg.MAX_CHUNKS_PER_CANDIDATE ∧
    ((_build_evidence_for_candidate cfg cid sparse_chunks dense_chunks).evidence.map
      (fun e => e.text_snippet.length)).sum ≤
      cfg.MAX_TOTAL_CHARS_PER_CANDIDATE + 3 := by
  have h := applyEvidenceBounds_bounds cfg
    (pySort evidenceLe (addDenseChunks cfg (addSparseChunks cfg sparse_chunks)
      dense_chunks).2) 0 0
  simpa using h

/-- Four 800-character sparse chunks for one candidate. -/
def c3chunks : List RetrievalHit :=
  [⟨"c1", "x", "", List.replicate 800 ('a'), 0, 1, "", []⟩,
   ⟨"c2", "x", "", List.replicate 800 ('a'), 0, 2, "", []⟩,
   ⟨"c3", "x", "", List.replicate 800 ('a'), 0, 3, "", []⟩,
   ⟨"c4", "x", "", List.replicate 800 ('a'), 0, 4, "", []⟩]

/-- Claim C3 (counterexample): with the default configuration
(`MAX_TOTAL_CHARS_PER_CANDIDATE = 2500`), four 800-character chunks yield a
pack whose snippet lengths sum to 2503 > 2500 — the truncated item is cut to
the 100 remaining characters and `"..."` is appended on top, so the claimed
hard character bound is exceeded. -/
theorem c3_char_bound_exceeded :
    ((_build_evidence_for_candidate defaultConfig ("x") c3chunks []).evidence.map
      (fun e => e.text_snippet.length)).sum = 2503 ∧
    defaultConfig.MAX_TOTAL_CHARS_PER_CANDIDATE < 2503 := by
  constructor
  · decide
  · decide

/-- Per-item tag characterization relative to the sparse ids and the dense
ids processed so far. -/
def itemTag (sparseIds doneIds : List String) (e : EvidenceItem) : Prop :=
  (e.why_matched = ("both") ∧ e.chunk_id ∈ sparseIds ∧ e.chunk_id ∈ doneIds) ∨
  (e.why_matched = ("sparse") ∧ e.chunk_id ∈ sparseIds ∧ e.chunk_id ∉ doneIds) ∨
  (e.why_matched = ("dense") ∧ e.chunk_id ∉ sparseIds ∧ e.chunk_id ∈ doneIds)

/-- Invariant of the dedup state `(seen_chunks, all_evidence)`. -/
def stInv (sparseIds doneIds : List String)
    (st : List String × List EvidenceItem) : Prop :=
  (st.2.map (fun e => e.chunk_id)).Nodup ∧
  (∀ id, id ∈ st.1 ↔ id ∈ st.2.map (fun e => e.chunk_id)) ∧
  (∀ e ∈ st.2, itemTag sparseIds doneIds e) ∧
  (∀ id, id ∈ st.2.map (fun e => e.chunk_id) ↔ (id ∈ sparseIds ∨ id ∈ doneIds))

theorem markBoth_ids (cid : String) :
    ∀ l : List EvidenceItem,
      (markBoth cid l).map (fun e => e.chunk_id) = l.map (fun e => e.chunk_id) := by
  intro l
  induction l with
  | nil => rfl
  | cons e rest ih =>
    unfold markBoth
    by_cases h : e.chunk_id = cid
    · rw [if_pos h]
      simp
    · rw [if_neg h]
      simpa using ih

theorem markBoth_mem {cid : String} :
    ∀ {l : List EvidenceItem}, (l.map (fun e => e.chunk_id)).Nodup →
      ∀ e2 ∈ markBoth cid l,
        (e2 ∈ l ∧ e2.chunk_id ≠ cid) ∨
        (∃ e ∈ l, e.chunk_id = cid ∧
          e2 = ⟨e.chunk_id, e.sect, e.text_snippet, ("both")⟩) := by
  intro l
  induction l with
  | nil => intro _ e2 h2; simp [markBoth] at h2
  | cons e rest ih =>
    intro hnd e2 h2
    rw [List.map_cons, List.nodup_cons] at hnd
    obtain ⟨hni, hnd2⟩ := hnd
    unfold markBoth at h2
    by_cases h : e.chunk_id = cid
    · rw [if_pos h] at h2
      rcases List.mem_cons.mp h2 with rfl | h3
      · right
        exact ⟨e, List.mem_cons_self _ _, h, rfl⟩
      · left
        refine ⟨List.mem_cons_of_mem _ h3, ?_⟩
        intro hc
        apply hni
        rw [← h] at hc
        rw [← hc]
        exact List.mem_map_of_mem _ h3
    · rw [if_neg h] at h2
      rcases List.mem_cons.mp h2 with rfl | h3
      · exact Or.inl ⟨List.mem_cons_self _ _, h⟩
      · rcases ih hnd2 e2 h3 with ⟨h4, h5⟩ | ⟨e3, h4, h5, h6⟩
        · exact Or.inl ⟨List.mem_cons_of_mem _ h4, h5⟩
        · exact Or.inr ⟨e3, List.mem_cons_of_mem _ h4, h5, h6⟩

theorem addSparse_go (cfg : Config) :
    ∀ (sc : List RetrievalHit) (st : List String × List EvidenceItem),
      (st.2.map (fun e => e.chunk_id)).Nodup →
      (∀ id, id ∈ st.1 ↔ id ∈ st.2.map (fun e => e.chunk_id)) →
      (∀ e ∈ st.2, e.why_matched = ("sparse")) →
      ((sc.foldl (sparseStep cfg) st).2.map (fun e => e.chunk_id)).Nodup ∧
      (∀ id, id ∈ (sc.foldl (sparseStep cfg) st).1 ↔
        id ∈ (sc.foldl (sparseStep cfg) st).2.map (fun e => e.chunk_id)) ∧
      (∀ e ∈ (sc.foldl (sparseStep cfg) st).2, e.why_matched = ("sparse")) ∧
      (∀ id, id ∈ (sc.foldl (sparseStep cfg) st).2.map (fun e => e.chunk_id) ↔
        (id ∈ st.2.map (fun e => e.chunk_id) ∨ id ∈ sc.map (fun h => h.chunk_id))) := by
  intro sc
  induction sc with
  | nil =>
    intro st h1 h2 h3
    refine ⟨h1, h2, h3, fun id => ?_⟩
    simp
  | cons c rest ih =>
    intro st h1 h2 h3
    rw [List.foldl_cons]
    by_cases hmem : c.chunk_id ∈ st.1
    · have hst : sparseStep cfg st c = st := by
        unfold sparseStep
        rw [if_pos hmem]
      rw [hst]
      obtain ⟨g1, g2, g3, g4⟩ := ih st h1 h2 h3
      refine ⟨g1, g2, g3, fun id => ?_⟩
      rw [g4 id]
      constructor
      · rintro (ha | hb)
        · exact Or.inl ha
        · refine Or.inr ?_
          rw [List.map_cons]
          exact List.mem_cons_of_mem _ hb
      · rintro (ha | hb)
        · exact Or.inl ha
        · rw [List.map_cons] at hb
          rcases List.mem_cons.mp hb with rfl | hc
          · exact Or.inl ((h2 _).mp hmem)
          · exact Or.inr hc
    · set e0 : EvidenceItem := ⟨c.chunk_id, c.section_type,
        c.chunk_text.take cfg.MAX_CHARS_PER_CHUNK, ("sparse")⟩ with he0
      have hst : sparseStep cfg st c = (st.1 ++ [c.chunk_id], st.2 ++ [e0]) := by
        unfold sparseStep
        rw [if_neg hmem]
      rw [hst]
      have hnotid : c.chunk_id ∉ st.2.map (fun e => e.chunk_id) :=
        fun hx => hmem ((h2 _).mpr hx)
      have hide0 : e0.chunk_id = c.chunk_id := by rw [he0]
      have k1 : ((st.2 ++ [e0]).map (fun e => e.chunk_id)).Nodup := by
        rw [List.map_append]
        simp only [List.map_cons, List.map_nil]
        rw [List.nodup_append]
        refine ⟨h1, List.nodup_singleton _, ?_⟩
        intro x hx hx2
        rw [List.mem_singleton] at hx2
        rw [hx2] at hx
        exact hnotid hx
      have k2 : ∀ id, id ∈ st.1 ++ [c.chunk_id] ↔
          id ∈ (st.2 ++ [e0]).map (fun e => e.chunk_id) := by
        intro id
        rw [List.map_append, List.mem_append, List.mem_append, h2 id]
        simp [hide0]
      have k3 : ∀ e ∈ st.2 ++ [e0], e.why_matched = ("sparse") := by
        intro e he
        rcases List.mem_append.mp he with ha | hb
        · exact h3 e ha
        · rw [List.mem_singleton.mp hb, he0]
      obtain ⟨g1, g2, g3, g4⟩ := ih (st.1 ++ [c.chunk_id], st.2 ++ [e0]) k1 k2 k3
      refine ⟨g1, g2, g3, fun id => ?_⟩
      rw [g4 id]
      rw [List.map_append, List.map_cons]
      simp only [List.map_cons, List.map_nil, List.mem_append,
        List.mem_singleton, List.mem_cons, hide0]
      constructor
      · rintro ((ha | hb | hb2) | hc)
        · exact Or.inl ha
        · exact Or.inr (Or.inl hb)
        · cases hb2
        · exact Or.inr (Or.inr hc)
      · rintro (ha | hb | hc)
        · exact Or.inl (Or.inl ha)
        · exact Or.inl (Or.inr (Or.inl hb))
        · exact Or.inr hc

theorem denseStep_inv (cfg : Config) (c : RetrievalHit)
    (st : List String × List EvidenceItem) (sIds doneIds : List String)
    (hnot : c.chunk_id ∉ doneIds) (hinv : stInv sIds doneIds st) :
    stInv sIds (doneIds ++ [c.chunk_id]) (denseStep cfg st c) := by
  obtain ⟨i1, i2, i3, i4⟩ := hinv
  unfold denseStep
  by_cases hmem : c.chunk_id ∈ st.1
  · rw [if_pos hmem]
    have hidmem : c.chunk_id ∈ st.2.map (fun e => e.chunk_id) := (i2 _).mp hmem
    have hsid : c.chunk_id ∈ sIds := by
      rcases (i4 _).mp hidmem with h | h
      · exact h
      · exact absurd h hnot
    refine ⟨?_, ?_, ?_, ?_⟩
    · show ((markBoth c.chunk_id st.2).map (fun e => e.chunk_id)).Nodup
      rw [markBoth_ids]
      exact i1
    · intro id
      show id ∈ st.1 ↔ id ∈ (markBoth c.chunk_id st.2).map (fun e => e.chunk_id)
      rw [markBoth_ids]
      exact i2 id
    · intro e2 he2
      rcases markBoth_mem i1 e2 he2 with ⟨hin, hne⟩ | ⟨e, hin, heid, rfl⟩
      · rcases i3 e2 hin with ⟨hw, hs, hd⟩ | ⟨hw, hs, hd⟩ | ⟨hw, hs, hd⟩
        · exact Or.inl ⟨hw, hs, List.mem_append.mpr (Or.inl hd)⟩
        · refine Or.inr (Or.inl ⟨hw, hs, ?_⟩)
          rw [List.mem_append]
          rintro (h | h)
          · exact hd h
          · exact hne (List.mem_singleton.mp h)
        · exact Or.inr (Or.inr ⟨hw, hs, List.mem_append.mpr (Or.inl hd)⟩)
      · refine Or.inl ⟨rfl, ?_, ?_⟩
        · show e.chunk_id ∈ sIds
          rw [heid]
          exact hsid
        · show e.chunk_id ∈ doneIds ++ [c.chunk_id]
          rw [heid]
          exact List.mem_append.mpr (Or.inr (List.mem_singleton.mpr rfl))
    · intro id
      show id ∈ (markBoth c.chunk_id st.2).map (fun e => e.chunk_id) ↔ _
      rw [markBoth_ids, i4 id]
      constructor
      · rintro (h | h)
        · exact Or.inl h
        · exact Or.inr (List.mem_append.mpr (Or.inl h))
      · rintro (h | h)
        · exact Or.inl h
        · rcases List.mem_append.mp h with h2 | h2
          · exact Or.inr h2
          · rw [List.mem_singleton.mp h2]
            exact (i4 _).mp hidmem
  · rw [if_neg hmem]
    have hnotid : c.chunk_id ∉ st.2.map (fun e => e.chunk_id) :=
      fun hx => hmem ((i2 _).mpr hx)
    have hnotsid : c.chunk_id ∉ sIds :=
      fun hx => hnotid ((i4 _).mpr (Or.inl hx))
    set e0 : EvidenceItem := ⟨c.chunk_id, c.section_type,
      c.chunk_text.take cfg.MAX_CHARS_PER_CHUNK, ("dense")⟩ with he0
    have hide0 : e0.chunk_id = c.chunk_id := by rw [he0]
    refine ⟨?_, ?_, ?_, ?_⟩
    · show ((st.2 ++ [e0]).map (fun e => e.chunk_id)).Nodup
      rw [List.map_append]
      rw [List.nodup_append]
      refine ⟨i1, by simp, ?_⟩
      intro x hx hx2
      simp only [List.map_cons, List.map_nil, List.mem_singleton, hide0] at hx2
      rw [hx2] at hx
      exact hnotid hx
    · intro id
      show id ∈ st.1 ++ [c.chunk_id] ↔ id ∈ (st.2 ++ [e0]).map (fun e => e.chunk_id)
      rw [List.map_append, List.mem_append, List.mem_append, i2 id]
      simp [hide0]
    · intro e2 he2
      rcases List.mem_append.mp he2 with hin | hin
      · rcases i3 e2 hin with ⟨hw, hs, hd⟩ | ⟨hw, hs, hd⟩ | ⟨hw, hs, hd⟩
        · exact Or.inl ⟨hw, hs, List.mem_append.mpr (Or.inl hd)⟩
        · refine Or.inr (Or.inl ⟨hw, hs, ?_⟩)
          rw [List.mem_append]
          rintro (h | h)
          · exact hd h
          · rw [List.mem_singleton.mp h] at hs
            exact hnotsid hs
        · exact Or.inr (Or.inr ⟨hw, hs, List.mem_append.mpr (Or.inl hd)⟩)
      · rw [List.mem_singleton.mp hin, he0]
        refine Or.inr (Or.inr ⟨rfl, hnotsid, ?_⟩)
        exact List.mem_append.mpr (Or.inr (List.mem_singleton.mpr rfl))
    · intro id
      show id ∈ (st.2 ++ [e0]).map (fun e => e.chunk_id) ↔ _
      rw [List.map_append, List.mem_append, i4 id]
      simp only [List.map_cons, List.map_nil, List.mem_singleton, hide0]
      rw [List.mem_append, List.mem_singleton]
      constructor
      · rintro ((h | h) | h)
        · exact Or.inl h
        · exact Or.inr (Or.inl h)
        · exact Or.inr (Or.inr h)
      · rintro (h | h | h)
        · exact Or.inl (Or.inl h)
        · exact Or.inl (Or.inr h)
        · exact Or.inr h

theorem addDense_go (cfg : Config) :
    ∀ (dc : List RetrievalHit) (st : List String × List EvidenceItem)
      (sIds doneIds : List String),
      (dc.map (fun h => h.chunk_id)).Nodup →
      (∀ c ∈ dc, c.chunk_id ∉ doneIds) →
      stInv sIds doneIds st →
      stInv sIds (doneIds ++ dc.map (fun h => h.chunk_id))
        (dc.foldl (denseStep cfg) st) := by
  intro dc
  induction dc with
  | nil =>
    intro st sIds doneIds _ _ hinv
    rw [List.map_nil, List.append_nil]
    exact hinv
  | cons c rest ih =>
    intro st sIds doneIds hnd hnotdone hinv
    rw [List.foldl_cons, List.map_cons]
    rw [List.map_cons, List.nodup_cons] at hnd
    obtain ⟨hcrest, hndrest⟩ := hnd
    have hstep := denseStep_inv cfg c st sIds doneIds
      (hnotdone c (List.mem_cons_self _ _)) hinv
    have hrest : ∀ c2 ∈ rest, c2.chunk_id ∉ doneIds ++ [c.chunk_id] := by
      intro c2 hc2
      rw [List.mem_append, List.mem_singleton]
      rintro (h | h)
      · exact hnotdone c2 (List.mem_cons_of_mem _ hc2) h
      · exact hcrest (h ▸ List.mem_map_of_mem _ hc2)
    have := ih (denseStep cfg st c) sIds (doneIds ++ [c.chunk_id])
      hndrest hrest hstep
    rw [show doneIds ++ [c.chunk_id] ++ rest.map (fun h => h.chunk_id) =
      doneIds ++ c.chunk_id :: rest.map (fun h => h.chunk_id) by simp] at this
    exact this

/-- The full dedup/marking phase satisfies the tag characterization. -/
theorem evidencePhase_inv (cfg : Config) (sc dc : List RetrievalHit)
    (hnd : (dc.map (fun h => h.chunk_id)).Nodup) :
    stInv (sc.map (fun h => h.chunk_id)) (dc.map (fun h => h.chunk_id))
      (addDenseChunks cfg (addSparseChunks cfg sc) dc) := by
  obtain ⟨s1, s2, s3, s4⟩ := addSparse_go cfg sc ([], [])
    (by simp) (by simp) (by simp)
  have hstart : stInv (sc.map (fun h => h.chunk_id)) []
      (addSparseChunks cfg sc) := by
    refine ⟨s1, s2, ?_, ?_⟩
    · intro e he
      refine Or.inr (Or.inl ⟨s3 e he, ?_, by simp⟩)
      have hm : e.chunk_id ∈
          (addSparseChunks cfg sc).2.map (fun e => e.chunk_id) :=
        List.mem_map_of_mem _ he
      rcases (s4 _).mp hm with h | h
      · simp at h
      · exact h
    · intro id
      show id ∈ (sc.foldl (sparseStep cfg) ([], [])).2.map (fun e => e.chunk_id) ↔ _
      rw [s4 id]
      simp
  have h := addDense_go cfg dc (addSparseChunks cfg sc)
    (sc.map (fun h => h.chunk_id)) [] hnd (by simp) hstart
  rw [List.nil_append] at h
  exact h

theorem applyEvidenceBounds_from (cfg : Config) :
    ∀ (l : List EvidenceItem) (count total : ℕ),
      ∀ e2 ∈ applyEvidenceBounds cfg l count total,
        ∃ e ∈ l, e2.chunk_id = e.chunk_id ∧ e2.why_matched = e.why_matched := by
  intro l
  induction l with
  | nil => intro count total e2 h2; simp [applyEvidenceBounds] at h2
  | cons e rest ih =>
    intro count total e2 h2
    unfold applyEvidenceBounds at h2
    by_cases h1 : count ≥ cfg.MAX_CHUNKS_PER_CANDIDATE
    · rw [if_pos h1] at h2
      simp at h2
    · rw [if_neg h1] at h2
      by_cases hc : total + e.text_snippet.length > cfg.MAX_TOTAL_CHARS_PER_CANDIDATE
      · rw [if_pos hc] at h2
        by_cases hr : cfg.MAX_TOTAL_CHARS_PER_CANDIDATE - total > 50
        · rw [if_pos hr] at h2
          rw [List.mem_singleton.mp h2]
          exact ⟨e, List.mem_cons_self _ _, rfl, rfl⟩
        · rw [if_neg hr] at h2
          simp at h2
      · rw [if_neg hc] at h2
        rcases List.mem_cons.mp h2 with rfl | h3
        · exact ⟨e2, List.mem_cons_self _ _, rfl, rfl⟩
        · obtain ⟨e3, h4, h5, h6⟩ := ih _ _ e2 h3
          exact ⟨e3, List.mem_cons_of_mem _ h4, h5, h6⟩

/-- The single sparse hit of the C8 counterexample. -/
def c8chunk : RetrievalHit := ⟨"c1", "x", "skills", ("python").data, 0, 1, "", []⟩

/-- Claim C8 (counterexample): the `why_matched` values written by
`_build_evidence_for_candidate` are `"sparse"`/`"dense"`/`"both"` — a chunk
found only by the lexical search is tagged `"sparse"`, which is not in the
claimed set `{lexical, vector, both}`. -/
theorem c8_why_matched_not_lexical_vector :
    ((_build_evidence_for_candidate defaultConfig ("x") [c8chunk] []).evidence.map
      (fun e => e.why_matched)) = [("sparse")] ∧
    ("sparse") ∉ [("lexical"), ("vector"), ("both")] := by
  constructor
  · decide
  · decide

/-- Claim C8 (amended): every `EvidenceItem` has `why_matched` in
`{sparse, dense, both}` (the source tags of `retriever_agent_node` are
`"sparse"`/`"dense"`, not `"lexical"`/`"vector"`), and — provided the dense
chunk list carries no duplicate chunk ids — `"both"` is assigned exactly
when the chunk id appears in both source lists, and the source tag
otherwise.  (A duplicated chunk id inside the dense list alone would also be
tagged `"both"`, which is why the hypothesis is needed.) -/
theorem c8_why_matched_values (cfg : Config) (cid : String)
    (sc dc : List RetrievalHit)
    (hnd : (dc.map (fun h => h.chunk_id)).Nodup) :
    ∀ e ∈ (_build_evidence_for_candidate cfg cid sc dc).evidence,
      (e.why_matched = ("both") ∧ e.chunk_id ∈ sc.map (fun h => h.chunk_id) ∧
        e.chunk_id ∈ dc.map (fun h => h.chunk_id)) ∨
      (e.why_matched = ("sparse") ∧ e.chunk_id ∈ sc.map (fun h => h.chunk_id) ∧
        e.chunk_id ∉ dc.map (fun h => h.chunk_id)) ∨
      (e.why_matched = ("dense") ∧ e.chunk_id ∉ sc.map (fun h => h.chunk_id) ∧
        e.chunk_id ∈ dc.map (fun h => h.chunk_id)) := by
  intro e he
  have he2 : e ∈ applyEvidenceBounds cfg
      (pySort evidenceLe
        (addDenseChunks cfg (addSparseChunks cfg sc) dc).2) 0 0 := he
  obtain ⟨e1, he1, hid, hwhy⟩ := applyEvidenceBounds_from cfg _ 0 0 e he2
  have he3 : e1 ∈ (addDenseChunks cfg (addSparseChunks cfg sc) dc).2 :=
    (pySort_perm evidenceLe _).subset he1
  have htag := (evidencePhase_inv cfg sc dc hnd).2.2.1 e1 he3
  rw [hid, hwhy]
  exact htag

/-- Witness for the amended C8 theorem: one candidate with a chunk found by
both searches (tagged `"both"`) — the theorem is applied at that concrete
input and the concrete first evidence item. -/
theorem c8_witness :
    (([⟨"c1", "x", "sk", ("ml").data, 0, 1, "", []⟩,
       ⟨"c2", "x", "sk", ("py").data, 0, 2, "", []⟩] :
        List RetrievalHit).map (fun h => h.chunk_id)).Nodup ∧
    (((⟨"c1", "sk", ("ml").data, ("both")⟩ : EvidenceItem).why_matched = ("both") ∧
      (⟨"c1", "sk", ("ml").data, ("both")⟩ : EvidenceItem).chunk_id ∈
        ([⟨"c1", "x", "sk", ("ml").data, 0, 1, "", []⟩] :
          List RetrievalHit).map (fun h => h.chunk_id) ∧
      (⟨"c1", "sk", ("ml").data, ("both")⟩ : EvidenceItem).chunk_id ∈
        ([⟨"c1", "x", "sk", ("ml").data, 0, 1, "", []⟩,
          ⟨"c2", "x", "sk", ("py").data, 0, 2, "", []⟩] :
          List RetrievalHit).map (fun h => h.chunk_id)) ∨
    ((⟨"c1", "sk", ("ml").data, ("both")⟩ : EvidenceItem).why_matched = ("sparse") ∧
      (⟨"c1", "sk", ("ml").data, ("both")⟩ : EvidenceItem).chunk_id ∈
        ([⟨"c1", "x", "sk", ("ml").data, 0, 1, "", []⟩] :
          List RetrievalHit).map (fun h => h.chunk_id) ∧
      (⟨"c1", "sk", ("ml").data, ("both")⟩ : EvidenceItem).chunk_id ∉
        ([⟨"c1", "x", "sk", ("ml").data, 0, 1, "", []⟩,
          ⟨"c2", "x", "sk", ("py").data, 0, 2, "", []⟩] :
          List RetrievalHit).map (fun h => h.chunk_id)) ∨
    ((⟨"c1", "sk", ("ml").data, ("both")⟩ : EvidenceItem).why_matched = ("dense") ∧
      (⟨"c1", "sk", ("ml").data, ("both")⟩ : EvidenceItem).chunk_id ∉
        ([⟨"c1", "x", "sk", ("ml").data, 0, 1, "", []⟩] :
          List RetrievalHit).map (fun h => h.chunk_id) ∧
      (⟨"c1", "sk", ("ml").data, ("both")⟩ : EvidenceItem).chunk_id ∈
        ([⟨"c1", "x", "sk", ("ml").data, 0, 1, "", []⟩,
          ⟨"c2", "x", "sk", ("py").data, 0, 2, "", []⟩] :
          List RetrievalHit).map (fun h => h.chunk_id))) :=
  ⟨by decide,
    c8_why_matched_values defaultConfig ("x")
      [⟨"c1", "x", "sk", ("ml").data, 0, 1, "", []⟩]
      [⟨"c1", "x", "sk", ("ml").data, 0, 1, "", []⟩,
       ⟨"c2", "x", "sk", ("py").data, 0, 2, "", []⟩]
      (by decide) ⟨"c1", "sk", ("ml").data, ("both")⟩ (by decide)⟩

/-! ## `ranker_agent.py` : score combination (C2) -/

/-- `max(values) if values else default`. -/
def listMax (l : List ℚ) (default : ℚ) : ℚ :=
  match l with
  | [] => default
  | x :: xs => xs.foldl max x

/-- `min(values) if values else default`. -/
def listMin (l : List ℚ) (default : ℚ) : ℚ :=
  match l with
  | [] => default
  | x :: xs => xs.foldl min x

theorem foldl_max_init : ∀ (xs : List ℚ) (acc : ℚ), acc ≤ xs.foldl max acc := by
  intro xs
  induction xs with
  | nil => intro acc; exact le_refl acc
  | cons y ys ih =>
    intro acc
    rw [List.foldl_cons]
    exact le_trans (le_max_left acc y) (ih (max acc y))

theorem foldl_max_le {v : ℚ} :
    ∀ (xs : List ℚ) (acc : ℚ), (v = acc ∨ v ∈ xs) → v ≤ xs.foldl max acc := by
  intro xs
  induction xs with
  | nil =>
    intro acc h
    rcases h with rfl | h
    · exact le_refl v
    · simp at h
  | cons y ys ih =>
    intro acc h
    rw [List.foldl_cons]
    rcases h with rfl | h
    · exact le_trans (le_max_left v y) (foldl_max_init ys (max v y))
    · rcases List.mem_cons.mp h with rfl | h2
      · exact le_trans (le_max_right acc v) (foldl_max_init ys (max acc v))
      · exact ih (max acc y) (Or.inr h2)

theorem le_listMax {v : ℚ} {l : List ℚ} (h : v ∈ l) (d : ℚ) : v ≤ listMax l d := by
  cases l with
  | nil => simp at h
  | cons x xs =>
    rcases List.mem_cons.mp h with rfl | h2
    · exact foldl_max_le xs v (Or.inl rfl)
    · exact foldl_max_le xs x (Or.inr h2)

theorem foldl_min_init : ∀ (xs : List ℚ) (acc : ℚ), xs.foldl min acc ≤ acc := by
  intro xs
  induction xs with
  | nil => intro acc; exact le_refl acc
  | cons y ys ih =>
    intro acc
    rw [List.foldl_cons]
    exact le_trans (ih (min acc y)) (min_le_left acc y)

theorem foldl_min_ge {v : ℚ} :
    ∀ (xs : List ℚ) (acc : ℚ), (v = acc ∨ v ∈ xs) → xs.foldl min acc ≤ v := by
  intro xs
  induction xs with
  | nil =>
    intro acc h
    rcases h with rfl | h
    · exact le_refl v
    · simp at h
  | cons y ys ih =>
    intro acc h
    rw [List.foldl_cons]
    rcases h with rfl | h
    · exact le_trans (foldl_min_init ys (min v y)) (min_le_left v y)
    · rcases List.mem_cons.mp h with rfl | h2
      · exact le_trans (foldl_min_init ys (min acc v)) (min_le_right acc v)
      · exact ih (min acc y) (Or.inr h2)

theorem listMin_le {v : ℚ} {l : List ℚ} (h : v ∈ l) (d : ℚ) : listMin l d ≤ v := by
  cases l with
  | nil => simp at h
  | cons x xs =>
    rcases List.mem_cons.mp h with rfl | h2
    · exact foldl_min_ge xs v (Or.inl rfl)
    · exact foldl_min_ge xs x (Or.inr h2)

theorem lookup_mem {α β : Type} [BEq α] [LawfulBEq α] {l : List (α × β)} {k : α}
    {v : β} (h : l.lookup k = some v) : (k, v) ∈ l := by
  induction l with
  | nil => simp at h
  | cons p rest ih =>
    rw [List.lookup_cons] at h
    rcases hk : (k == p.1) with _ | _
    · rw [hk] at h
      exact List.mem_cons_of_mem _ (ih h)
    · rw [hk] at h
      obtain rfl : p.2 = v := by injection h
      have hkp : k = p.1 := eq_of_beq hk
      have hp : (k, p.2) = p := by rw [hkp]
      rw [hp]
      exact List.mem_cons_self _ _

/-- Overwrite-or-append insertion of a Python dict. -/
def pyDictInsert (d : List (String × ℚ)) (k : String) (v : ℚ) :
    List (String × ℚ) :=
  if (d.lookup k).isSome then d.map (fun p => if p.1 = k then (k, v) else p)
  else d ++ [(k, v)]

/-- The dict comprehension `{p.1: p.2 for p in pairs}`. -/
def pyDictOf (pairs : List (String × ℚ)) : List (String × ℚ) :=
  pairs.foldl (fun d p => pyDictInsert d p.1 p.2) []

/-- `d.get(k, default)` on a Python dict. -/
def pyDictGet (d : List (String × ℚ)) (k : String) (default : ℚ) : ℚ :=
  ((d.lookup k).getD default)

theorem pyDictInsert_values {P : ℚ → Prop} {d : List (String × ℚ)} {k : String}
    {v : ℚ} (hd : ∀ x ∈ d.map (fun p => p.2), P x) (hv : P v) :
    ∀ x ∈ (pyDictInsert d k v).map (fun p => p.2), P x := by
  intro x hx
  unfold pyDictInsert at hx
  by_cases hc : (d.lookup k).isSome
  · rw [if_pos hc] at hx
    rw [List.map_map] at hx
    obtain ⟨p, hp, hpx⟩ := List.mem_map.mp hx
    by_cases hpk : p.1 = k
    · have : x = v := by
        rw [← hpx]
        simp [hpk]
      rw [this]
      exact hv
    · have : x = p.2 := by
        rw [← hpx]
        simp [hpk]
      rw [this]
      exact hd _ (List.mem_map_of_mem _ hp)
  · rw [if_neg hc] at hx
    rw [List.map_append, List.mem_append] at hx
    rcases hx with h | h
    · exact hd x h
    · rw [show x = v by simpa using h]
      exact hv

theorem pyDictOf_values {P : ℚ → Prop} :
    ∀ (pairs : List (String × ℚ)) (d : List (String × ℚ)),
      (∀ x ∈ d.map (fun p => p.2), P x) → (∀ p ∈ pairs, P p.2) →
      ∀ x ∈ (pairs.foldl (fun d p => pyDictInsert d p.1 p.2) d).map
        (fun p => p.2), P x := by
  intro pairs
  induction pairs with
  | nil => intro d hd _ x hx; exact hd x hx
  | cons p rest ih =>
    intro d hd hp x hx
    rw [List.foldl_cons] at hx
    exact ih (pyDictInsert d p.1 p.2)
      (pyDictInsert_values hd (hp p (List.mem_cons_self _ _)))
      (fun q hq => hp q (List.mem_cons_of_mem _ hq)) x hx

theorem pyDictGet_cases (d : List (String × ℚ)) (k : String) (default : ℚ) :
    pyDictGet d k default = default ∨
    pyDictGet d k default ∈ d.map (fun p => p.2) := by
  unfold pyDictGet
  cases h : d.lookup k with
  | none => exact Or.inl rfl
  | some v =>
    right
    have := lookup_mem h
    simpa using List.mem_map_of_mem (fun p => p.2) this

/-- Python `round` to an integer — round half to even. -/
def pyRoundInt (x : ℚ) : ℤ :=
  let f := ⌊x⌋
  let r := x - f
  if r < 1 / 2 then f
  else if 1 / 2 < r then f + 1
  else if f % 2 = 0 then f else f + 1

/-- Python `round(x, n)` on exact rationals. -/
def pyRound (x : ℚ) (n : ℕ) : ℚ :=
  (pyRoundInt (x * 10 ^ n) : ℚ) / 10 ^ n

theorem pyRoundInt_bounds {x : ℚ} {B : ℤ} (h0 : 0 ≤ x) (h1 : x ≤ (B : ℚ)) :
    0 ≤ pyRoundInt x ∧ pyRoundInt x ≤ B := by
  unfold pyRoundInt
  have hf0 : 0 ≤ ⌊x⌋ := by
    rw [Int.le_floor]
    exact_mod_cast h0
  have hfB : ⌊x⌋ ≤ B := by
    have := Int.floor_le_floor h1
    rw [Int.floor_intCast] at this
    exact this
  have hup : ¬ (x - ⌊x⌋ < 1 / 2) → ⌊x⌋ + 1 ≤ B := by
    intro hr
    by_contra hc
    have hfB2 : ⌊x⌋ = B := by omega
    have : x < ⌊x⌋ + 1 / 2 := by
      have h2 : (⌊x⌋ : ℚ) = (B : ℚ) := by exact_mod_cast hfB2
      rw [h2]
      calc x ≤ (B : ℚ) := h1
        _ < (B : ℚ) + 1 / 2 := by norm_num
    exact hr (by linarith)
  by_cases hr : x - ⌊x⌋ < 1 / 2
  · rw [if_pos hr]
    exact ⟨hf0, hfB⟩
  · rw [if_neg hr]
    have hB2 := hup hr
    by_cases hr2 : 1 / 2 < x - ⌊x⌋
    · rw [if_pos hr2]
      constructor
      · omega
      · exact hB2
    · rw [if_neg hr2]
      by_cases he : ⌊x⌋ % 2 = 0
      · rw [if_pos he]
        exact ⟨hf0, hfB⟩
      · rw [if_neg he]
        constructor
        · omega
        · exact hB2

theorem pyRound1_bounds {x : ℚ} (h0 : 0 ≤ x) (h1 : x ≤ 100) :
    0 ≤ pyRound x 1 ∧ pyRound x 1 ≤ 100 := by
  unfold pyRound
  have h2 : 0 ≤ x * 10 ^ 1 := by positivity
  have h3 : x * 10 ^ 1 ≤ ((1000 : ℤ) : ℚ) := by
    push_cast
    nlinarith
  obtain ⟨b0, b1⟩ := pyRoundInt_bounds h2 h3
  constructor
  · positivity
  · rw [div_le_iff₀ (by norm_num)]
    calc ((pyRoundInt (x * 10 ^ 1) : ℚ)) ≤ ((1000 : ℤ) : ℚ) := by exact_mod_cast b1
      _ = 100 * 10 ^ 1 := by norm_num

/-- An entry of `final_results_raw` in `ranker_agent_node`. -/
structure RankedResult where
  candidate_id : String
  final_score : ℚ
  rrf_score : ℚ
  rerank_score : ℚ
  dense_rank : Option ℕ
  sparse_rank : Option ℕ
  matched_skills : List String
  matched_count : ℕ
deriving DecidableEq

/-- `ce_norm = (ce_raw - ce_min) / ce_range if ce_range > 0 else 0`
(NOT clamped to `[0, 1]`). -/
def ceNorm (ce_scores : List (String × ℚ)) (ce_min ce_range : ℚ)
    (cid : String) : ℚ :=
  if ce_range > 0 then (pyDictGet ce_scores cid 0 - ce_min) / ce_range else 0

/-- `rrf_norm = rrf_scores.get(cid, 0) / rrf_max if rrf_max > 0 else 0`. -/
def rrfNorm (rrf_scores : List (String × ℚ)) (rrf_max : ℚ) (cid : String) : ℚ :=
  if rrf_max > 0 then pyDictGet rrf_scores cid 0 / rrf_max else 0

/-- The body of the final-score loop of `ranker_agent_node`. -/
def rankOne (cfg : Config) (rrf_scores ce_scores : List (String × ℚ))
    (rrf_max ce_min ce_range : ℚ) (candidate : FusedCandidate) : RankedResult :=
  let cid := candidate.candidate_id
  let rrf_norm := rrfNorm rrf_scores rrf_max cid
  let ce_raw := pyDictGet ce_scores cid 0
  let ce_norm := ceNorm ce_scores ce_min ce_range cid
  let final_score := cfg.W_RRF * rrf_norm + cfg.W_CE * ce_norm
  ⟨cid, pyRound (final_score * 100) 1, pyRound (pyDictGet rrf_scores cid 0) 6,
    pyRound ce_raw 4, candidate.dense_rank, candidate.sparse_rank,
    candidate.matched_skills, candidate.matched_count⟩

/-- The score-combination part of `ranker_agent_node` from
`app/agents/ranker_agent.py`: normalize RRF and cross-encoder scores over
the top `K_RERANK` candidates, combine with weights, scale to 0–100, round
to one decimal, sort descending by final score.  `rerank_scores` is the dict
produced by the cross-encoder call (all zeros when the call failed). -/
def ranker_agent_node (cfg : Config) (fused : List FusedCandidate)
    (rerank_scores : List (String × ℚ)) : List RankedResult :=
  let top_candidates := fused.take cfg.K_RERANK
  let rrf_scores := pyDictOf (top_candidates.map (fun c => (c.candidate_id, c.rrf_score)))
  let rrf_max := listMax (rrf_scores.map (fun p => p.2)) 1
  let ce_values := (rerank_scores.map (fun p => p.2)).filter (fun v => v ≠ 0)
  let ce_max := listMax ce_values 1
  let ce_min := listMin ce_values 0
  let ce_range := if ce_max ≠ ce_min then ce_max - ce_min else 1
  pySort (fun a b => b.final_score ≤ a.final_score)
    (top_candidates.map (rankOne cfg rrf_scores rerank_scores rrf_max ce_min ce_range))

theorem rrfNorm_bounds (RS : List (String × ℚ)) (cid : String)
    (hvals : ∀ v ∈ RS.map (fun p => p.2), 0 ≤ v) :
    0 ≤ rrfNorm RS (listMax (RS.map (fun p => p.2)) 1) cid ∧
    rrfNorm RS (listMax (RS.map (fun p => p.2)) 1) cid ≤ 1 := by
  unfold rrfNorm
  by_cases h : listMax (RS.map (fun p => p.2)) 1 > 0
  · rw [if_pos h]
    rcases pyDictGet_cases RS cid 0 with hq | hq
    · rw [hq]
      norm_num
    · constructor
      · exact div_nonneg (hvals _ hq) (le_of_lt h)
      · rw [div_le_one h]
        exact le_listMax hq 1
  · rw [if_neg h]
    norm_num

theorem ceNorm_zero_of_all_zero (SC : List (String × ℚ)) (cid : String)
    (hz : ∀ v ∈ SC.map (fun p => p.2), v = 0) :
    ceNorm SC
      (listMin ((SC.map (fun p => p.2)).filter (fun v => v ≠ 0)) 0)
      (if listMax ((SC.map (fun p => p.2)).filter (fun v => v ≠ 0)) 1 ≠
          listMin ((SC.map (fun p => p.2)).filter (fun v => v ≠ 0)) 0
        then listMax ((SC.map (fun p => p.2)).filter (fun v => v ≠ 0)) 1 -
          listMin ((SC.map (fun p => p.2)).filter (fun v => v ≠ 0)) 0
        else 1) cid = 0 := by
  have hnil : (SC.map (fun p => p.2)).filter (fun v => v ≠ 0) = [] := by
    rw [List.filter_eq_nil_iff]
    intro a ha
    simp [hz a ha]
  rw [hnil]
  unfold ceNorm listMax listMin
  have hget : pyDictGet SC cid 0 = 0 := by
    rcases pyDictGet_cases SC cid 0 with h | h
    · exact h
    · exact hz _ h
  rw [hget]
  norm_num

theorem ceNorm_bounds (SC : List (String × ℚ)) (cid : String)
    (hcase : (∀ v ∈ SC.map (fun p => p.2), v = 0) ∨ pyDictGet SC cid 0 ≠ 0) :
    0 ≤ ceNorm SC
      (listMin ((SC.map (fun p => p.2)).filter (fun v => v ≠ 0)) 0)
      (if listMax ((SC.map (fun p => p.2)).filter (fun v => v ≠ 0)) 1 ≠
          listMin ((SC.map (fun p => p.2)).filter (fun v => v ≠ 0)) 0
        then listMax ((SC.map (fun p => p.2)).filter (fun v => v ≠ 0)) 1 -
          listMin ((SC.map (fun p => p.2)).filter (fun v => v ≠ 0)) 0
        else 1) cid ∧
    ceNorm SC
      (listMin ((SC.map (fun p => p.2)).filter (fun v => v ≠ 0)) 0)
      (if listMax ((SC.map (fun p => p.2)).filter (fun v => v ≠ 0)) 1 ≠
          listMin ((SC.map (fun p => p.2)).filter (fun v => v ≠ 0)) 0
        then listMax ((SC.map (fun p => p.2)).filter (fun v => v ≠ 0)) 1 -
          listMin ((SC.map (fun p => p.2)).filter (fun v => v ≠ 0)) 0
        else 1) cid ≤ 1 := by
  rcases hcase with hz | hq
  · rw [ceNorm_zero_of_all_zero SC cid hz]
    norm_num
  · have hsome : SC.lookup cid = some (pyDictGet SC cid 0) := by
      unfold pyDictGet
      cases h : SC.lookup cid with
      | none =>
        exfalso
        apply hq
        unfold pyDictGet
        rw [h]
        rfl
      | some v => rfl
    have hmem : pyDictGet SC cid 0 ∈ SC.map (fun p => p.2) := by
      have := lookup_mem hsome
      simpa using List.mem_map_of_mem (fun p => p.2) this
    have hmemf : pyDictGet SC cid 0 ∈
        (SC.map (fun p => p.2)).filter (fun v => v ≠ 0) := by
      rw [List.mem_filter]
      exact ⟨hmem, by simpa using hq⟩
    have hmin := listMin_le hmemf 0
    have hmax := le_listMax hmemf 1
    unfold ceNorm
    by_cases hne : listMax ((SC.map (fun p => p.2)).filter (fun v => v ≠ 0)) 1 ≠
        listMin ((SC.map (fun p => p.2)).filter (fun v => v ≠ 0)) 0
    · rw [if_pos hne]
      have hlt : listMin ((SC.map (fun p => p.2)).filter (fun v => v ≠ 0)) 0 <
          listMax ((SC.map (fun p => p.2)).filter (fun v => v ≠ 0)) 1 :=
        lt_of_le_of_ne (le_trans hmin hmax) (Ne.symm hne)
      have hrpos : (0 : ℚ) <
          listMax ((SC.map (fun p => p.2)).filter (fun v => v ≠ 0)) 1 -
          listMin ((SC.map (fun p => p.2)).filter (fun v => v ≠ 0)) 0 := by
        linarith
      rw [if_pos hrpos]
      constructor
      · apply div_nonneg _ (le_of_lt hrpos)
        linarith
      · rw [div_le_one hrpos]
        linarith
    · rw [if_neg hne]
      rw [not_ne_iff] at hne
      have h01 : (0 : ℚ) < 1 := by norm_num
      rw [if_pos h01]
      have : pyDictGet SC cid 0 =
          listMin ((SC.map (fun p => p.2)).filter (fun v => v ≠ 0)) 0 := by
        rw [← hne] at hmin
        linarith
      rw [this]
      norm_num

/-- Claim C2 (amended): provided the weights are non-negative and sum to at
most 1, rrf scores are non-negative, and the reranker score of every ranked
candidate is nonzero — or all reranker scores are zero — every
`final_score` lies in `[0, 100]`, and the output is sorted non-increasing
by `final_score`; when all reranker scores are zero, `ce_norm` is 0 for
every candidate.  (`ce_norm` is NOT clamped: a candidate whose reranker
score is 0 while others are nonzero can leave `[0, 1]`, see the
counterexample.) -/
theorem c2_final_score_bounds_sorted (cfg : Config) (fused : List FusedCandidate)
    (rerank_scores : List (String × ℚ))
    (hw1 : 0 ≤ cfg.W_RRF) (hw2 : 0 ≤ cfg.W_CE) (hw3 : cfg.W_RRF + cfg.W_CE ≤ 1)
    (hrrf : ∀ c ∈ fused, 0 ≤ c.rrf_score)
    (hce : (∀ v ∈ rerank_scores.map (fun p => p.2), v = 0) ∨
      (∀ c ∈ fused.take cfg.K_RERANK,
        pyDictGet rerank_scores c.candidate_id 0 ≠ 0)) :
    (∀ r ∈ ranker_agent_node cfg fused rerank_scores,
      0 ≤ r.final_score ∧ r.final_score ≤ 100) ∧
    List.Pairwise (fun a b => b.final_score ≤ a.final_score)
      (ranker_agent_node cfg fused rerank_scores) ∧
    ((∀ v ∈ rerank_scores.map (fun p => p.2), v = 0) → ∀ cid : String,
      ceNorm rerank_scores
        (listMin ((rerank_scores.map (fun p => p.2)).filter (fun v => v ≠ 0)) 0)
        (if listMax ((rerank_scores.map (fun p => p.2)).filter (fun v => v ≠ 0)) 1 ≠
            listMin ((rerank_scores.map (fun p => p.2)).filter (fun v => v ≠ 0)) 0
          then listMax ((rerank_scores.map (fun p => p.2)).filter (fun v => v ≠ 0)) 1 -
            listMin ((rerank_scores.map (fun p => p.2)).filter (fun v => v ≠ 0)) 0
          else 1) cid = 0) := by
  refine ⟨?_, ?_, fun hz cid => ceNorm_zero_of_all_zero rerank_scores cid hz⟩
  · intro r hr
    have hr2 : r ∈ (fused.take cfg.K_RERANK).map
        (rankOne cfg
          (pyDictOf ((fused.take cfg.K_RERANK).map
            (fun c => (c.candidate_id, c.rrf_score))))
          rerank_scores
          (listMax ((pyDictOf ((fused.take cfg.K_RERANK).map
            (fun c => (c.candidate_id, c.rrf_score)))).map (fun p => p.2)) 1)
          (listMin ((rerank_scores.map (fun p => p.2)).filter (fun v => v ≠ 0)) 0)
          (if listMax ((rerank_scores.map (fun p => p.2)).filter (fun v => v ≠ 0)) 1 ≠
              listMin ((rerank_scores.map (fun p => p.2)).filter (fun v => v ≠ 0)) 0
            then listMax ((rerank_scores.map (fun p => p.2)).filter (fun v => v ≠ 0)) 1 -
              listMin ((rerank_scores.map (fun p => p.2)).filter (fun v => v ≠ 0)) 0
            else 1)) :=
      (pySort_perm _ _).subset hr
    obtain ⟨c, hc, rfl⟩ := List.mem_map.mp hr2
    have hvals : ∀ v ∈ ((pyDictOf ((fused.take cfg.K_RERANK).map
        (fun c => (c.candidate_id, c.rrf_score)))).map (fun p => p.2)), 0 ≤ v := by
      intro v hv
      have hv2 : v ∈ (((fused.take cfg.K_RERANK).map
          (fun c => (c.candidate_id, c.rrf_score))).foldl
          (fun d p => pyDictInsert d p.1 p.2) []).map (fun p => p.2) := hv
      refine @pyDictOf_values (fun v => 0 ≤ v)
        ((fused.take cfg.K_RERANK).map (fun c => (c.candidate_id, c.rrf_score)))
        [] (by simp) ?_ v hv2
      intro p hp
      obtain ⟨c2, hc2, rfl⟩ := List.mem_map.mp hp
      exact hrrf c2 (List.mem_of_mem_take hc2)
    obtain ⟨hr0, hr1⟩ := rrfNorm_bounds _ c.candidate_id hvals
    have hcec : (∀ v ∈ rerank_scores.map (fun p => p.2), v = 0) ∨
        pyDictGet rerank_scores c.candidate_id 0 ≠ 0 := by
      rcases hce with h | h
      · exact Or.inl h
      · exact Or.inr (h c hc)
    obtain ⟨hc0, hc1⟩ := ceNorm_bounds rerank_scores c.candidate_id hcec
    show 0 ≤ (rankOne cfg _ _ _ _ _ c).final_score ∧
      (rankOne cfg _ _ _ _ _ c).final_score ≤ 100
    unfold rankOne
    simp only
    apply pyRound1_bounds
    · nlinarith
    · nlinarith
  · have hs := @pySort_pairwise RankedResult
      (fun a b => decide (b.final_score ≤ a.final_score))
      (fun a b c h1 h2 => by
        rw [decide_eq_true_eq] at h1 h2 ⊢
        exact le_trans h2 h1)
      (fun a b => by
        rw [decide_eq_true_eq, decide_eq_true_eq]
        exact le_total b.final_score a.final_score)
      ((fused.take cfg.K_RERANK).map (rankOne cfg
        (pyDictOf ((fused.take cfg.K_RERANK).map
          (fun c => (c.candidate_id, c.rrf_score))))
        rerank_scores
        (listMax ((pyDictOf ((fused.take cfg.K_RERANK).map
          (fun c => (c.candidate_id, c.rrf_score)))).map (fun p => p.2)) 1)
        (listMin ((rerank_scores.map (fun p => p.2)).filter (fun v => v ≠ 0)) 0)
        (if listMax ((rerank_scores.map (fun p => p.2)).filter (fun v => v ≠ 0)) 1 ≠
            listMin ((rerank_scores.map (fun p => p.2)).filter (fun v => v ≠ 0)) 0
          then listMax ((rerank_scores.map (fun p => p.2)).filter (fun v => v ≠ 0)) 1 -
            listMin ((rerank_scores.map (fun p => p.2)).filter (fun v => v ≠ 0)) 0
          else 1)))
    exact hs.imp (fun h => of_decide_eq_true h)

/-- The fused candidates of the C2 counterexample (equal rrf scores). -/
def c2fused : List FusedCandidate :=
  [⟨"a", 1, none, some 1, [], 0⟩, ⟨"b", 1, none, some 1, [], 0⟩,
   ⟨"c", 1, none, some 1, [], 0⟩]

/-- The reranker scores of the C2 counterexample: two negative scores and
one zero score. -/
def c2scores : List (String × ℚ) := [("a", -2), ("b", -1), ("c", 0)]

/-- Claim C2 (counterexample): `ce_norm` is NOT clamped to `[0, 1]`: with
reranker scores `{a: -2, b: -1, c: 0}` the zero-scored candidate `c` gets
`ce_norm = (0 - (-2)) / 1 = 2` and `final_score = 165 > 100`, so the claimed
bound `final_score ∈ [0, 100]` fails. -/
theorem c2_final_score_exceeds_100 :
    (ranker_agent_node defaultConfig c2fused c2scores).map
      (fun r => r.final_score) = [165, 100, 35] ∧ ¬ ((165 : ℚ) ≤ 100) := by
  constructor
  · simp [c2fused, c2scores, ranker_agent_node, rankOne, rrfNorm, ceNorm,
      pyDictOf, pyDictInsert, pyDictGet, listMax, listMin, pySort, insertStable,
      pyRound, pyRoundInt, defaultConfig, List.lookup]
    norm_num [insertStable]
  · norm_num

/-- Witness for the amended C2 theorem at a concrete input (one candidate,
nonzero reranker score). -/
theorem c2_witness :
    List.Pairwise (fun a b => b.final_score ≤ a.final_score)
      (ranker_agent_node defaultConfig
        [⟨"a", 1, none, some 1, [], 0⟩] [("a", 2)]) :=
  (c2_final_score_bounds_sorted defaultConfig [⟨"a", 1, none, some 1, [], 0⟩]
    [("a", 2)]
    (by norm_num [defaultConfig])
    (by norm_num [defaultConfig])
    (by norm_num [defaultConfig])
    (by
      intro c hc
      rw [List.mem_singleton.mp hc]
      norm_num)
    (Or.inr (by
      intro c hc
      have h2 : c = ⟨"a", 1, none, some 1, [], 0⟩ :=
        List.mem_singleton.mp (List.mem_of_mem_take hc)
      rw [h2]
      norm_num [pyDictGet, List.lookup]))).2.1

/-! ## `jd_agent.py` : query understanding (C4)

The LLM call (`llm.ainvoke`) sits OUTSIDE the `try` block of
`jd_agent_node`; only JSON extraction/parsing/coercion is guarded.  The LLM
is an external collaborator modelled as an `Except` outcome, and
`json.loads` + schema coercion as an oracle `String → Option ParsedSpec`. -/

/-- `MissionSpec` from `app/agents/state.py`.  Note: it has NO `core_domain`
field. -/
structure MissionSpec where
  must_have : List String := []
  nice_to_have : List String := []
  negative_constraints : List String := []
  min_years : Option ℤ := none
  location : Option String := none
  weights : List (String × ℚ) := []
  clarifications : List String := []
  raw_query : String := ""
deriving DecidableEq

/-- The JSON object shape the `try` block coerces into a `MissionSpec`. -/
structure ParsedSpec where
  must_have : List String := []
  nice_to_have : List String := []
  negative_constraints : List String := []
  min_years : Option ℤ := none
  location : Option String := none
  clarifications : List String := []
deriving DecidableEq

/-- The `MissionSpec(...)` construction of the `try` block. -/
def specOfParsed (p : ParsedSpec) (query : String) : MissionSpec :=
  ⟨p.must_have, p.nice_to_have, p.negative_constraints, p.min_years,
   p.location, [], p.clarifications, query⟩

/-- `re.split` on a character class repeated (`[...]+`): split at each
maximal run of separator characters, keeping boundary empties. -/
def splitRunsGo (p : Char → Bool) (acc : List Char) :
    List Char → List (List Char)
  | [] => [acc.reverse]
  | c :: rest =>
    if p c then acc.reverse :: splitRunsGo p [] (rest.dropWhile p)
    else splitRunsGo p (c :: acc) rest
termination_by l => l.length
decreasing_by
  · simp only [List.length_cons]
    have : (rest.dropWhile p).length ≤ rest.length :=
      (List.dropWhile_suffix p).length_le
    omega
  · simp [List.length_cons]

/-- `re.split(pattern_class, s)`. -/
def splitRuns (p : Char → Bool) (l : List Char) : List (List Char) :=
  splitRunsGo p [] l

/-- The token-separator class `[,;.\n]` of `_fallback_parse`. -/
def isTokenSplitChar (c : Char) : Bool :=
  c = ',' || c = ';' || c = '.' || c = '\n'

/-- A regex word character (`\w`, ASCII). -/
def isWordChar (c : Char) : Bool :=
  (('a' ≤ c && c ≤ 'z') || ('A' ≤ c && c ≤ 'Z') ||
   ('0' ≤ c && c ≤ '9') || c = '_')

/-- The stopword alternation of `_fallback_parse`, in source order. -/
def STOPWORDS : List String :=
  [("with"), ("and"), ("or"), ("experience"), ("in"), ("of"), ("the"), ("a"),
   ("an"), ("for"), ("to"), ("is"), ("are"), ("we"), ("need"), ("looking"),
   ("senior"), ("junior"), ("mid"), ("level"), ("developer"), ("engineer"),
   ("specialist")]

/-- Right word-boundary check after a candidate stopword match. -/
def stopBoundaryOk (l : List Char) : Bool :=
  match l.head? with
  | none => true
  | some c => ! isWordChar c

/-- The length of the stopword matching at this position (with a valid right
boundary), if any. -/
def stopMatchLen (l : List Char) : Option ℕ :=
  (STOPWORDS.find? (fun w =>
    w.data.isPrefixOf l && stopBoundaryOk (l.drop w.data.length))).map
    (fun w => w.data.length)

/-- `re.sub(r"\b(with|and|...)\b", " ", s)`: scan left to right, replacing
each boundary-delimited stopword with a single space.  `prev` records
whether the previous original character is a word character (the left
boundary). -/
def stopSub (prev : Bool) : List Char → List Char
  | [] => []
  | c :: rest =>
    if ¬ prev then
      match stopMatchLen (c :: rest) with
      | some n => ' ' :: stopSub true (rest.drop (n - 1))
      | none => c :: stopSub (isWordChar c) rest
    else c :: stopSub (isWordChar c) rest
termination_by l => l.length
decreasing_by
  · simp only [List.length_cons]
    have := List.length_drop (n - 1) rest
    omega
  · simp [List.length_cons]
  · simp [List.length_cons]

/-- Per-token cleaning of `_fallback_parse`:
`token.strip().lower()`, stopword removal, final `strip()`. -/
def processToken (token : List Char) : List Char :=
  pyStripChars (stopSub false (pyLowerChars (pyStripChars token)))

/-- The value of a digit run. -/
def digitsVal (l : List Char) : ℕ :=
  l.foldl (fun acc c => acc * 10 + (c.toNat - 48)) 0

/-- After the digit run: optional `+`, then `\s*`, then one of
`years?|yrs?|yoe` case-insensitively (matchability only needs the
alternation prefixes `year`/`yr`/`yoe`). -/
def yearsSuffixOk (l : List Char) : Bool :=
  let l2 := if l.head? = some '+' then l.tail else l
  let l3 := l2.dropWhile pyIsSpace
  let low := pyLowerChars l3
  ("year").data.isPrefixOf low || ("yr").data.isPrefixOf low ||
    ("yoe").data.isPrefixOf low

/-- `re.search(r"(\d+)\+?\s*(?:years?|yrs?|YOE)", query, re.IGNORECASE)`,
returning `int(group(1))`: the leftmost digit run whose maximal extent is
followed by the rest of the pattern. -/
def findMinYears : List Char → Option ℕ
  | [] => none
  | c :: rest =>
    if c.isDigit then
      if yearsSuffixOk ((c :: rest).dropWhile Char.isDigit) then
        some (digitsVal ((c :: rest).takeWhile Char.isDigit))
      else findMinYears rest
    else findMinYears rest

/-- The keyword-fallback clarification note appended by `_fallback_parse`. -/
def fallbackNote : String :=
  ("Query was parsed using keyword extraction. ") ++
  ("Provide a more detailed JD for better results.")

/-- `_fallback_parse` from `app/agents/jd_agent.py`. -/
def _fallback_parse (query : String) : MissionSpec :=
  let min_years := (findMinYears query.data).map (fun n => (n : ℤ))
  let tokens := splitRuns isTokenSplitChar query.data
  let skills := (tokens.map (fun t => processToken t)).filter
    (fun cl => cl ≠ [] ∧ 1 < cl.length ∧ cl.length < 50)
  let normalized := normalize_skills (skills.map (fun l => String.mk l))
  ⟨normalized, [], [], min_years, none, [], [fallbackNote], query⟩

/-- The markdown code-fence stripping of the `try` block. -/
def stripCodeFences (content : String) : String :=
  if pyIn ("```json") content then
    (((content.splitOn ("```json")).getD 1 ("")).splitOn ("```")).headD ("")
  else if pyIn ("```") content then
    (((content.splitOn ("```")).getD 1 ("")).splitOn ("```")).headD ("")
  else content

/-- `jd_agent_node` from `app/agents/jd_agent.py`: empty query short-circuits
to an empty spec; an LLM error propagates (the `ainvoke` call is outside the
`try`); a parse failure falls back to `_fallback_parse`. -/
def jd_agent_node (query : String) (llm : Except String String)
    (jsonLoads : String → Option ParsedSpec) : Except String MissionSpec :=
  if query = ("") then Except.ok ⟨[], [], [], none, none, [], [], ("")⟩
  else
    match llm with
    | Except.error e => Except.error e
    | Except.ok content =>
      match jsonLoads (pyStrip (stripCodeFences content)) with
      | some parsed => Except.ok (specOfParsed parsed query)
      | none => Except.ok (_fallback_parse query)

/-- Claim C4 (counterexample): the stage CAN fail fatally.  When the LLM
call raises (here: a connection timeout) the exception propagates out of
`jd_agent_node` — the `ainvoke` call is outside the `try` block — instead of
degrading to the keyword fallback. -/
theorem c4_llm_error_propagates :
    jd_agent_node ("python developer") (Except.error ("connection timeout"))
      (fun _ => none) = Except.error ("connection timeout") := by
  rfl

/-- Claim C4 (amended): if the LLM call RETURNS and its response is not
valid JSON (the parse-and-coerce oracle yields `none`), the stage falls back
to the deterministic keyword parser and still returns a `MissionSpec`, with
`must_have` populated from the normalized query tokens and a clarification
noting the fallback; but an error raised by the LLM call itself propagates
(see the counterexample). -/
theorem c4_invalid_json_falls_back (query content : String)
    (jsonLoads : String → Option ParsedSpec) (hq : query ≠ (""))
    (hj : jsonLoads (pyStrip (stripCodeFences content)) = none) :
    jd_agent_node query (Except.ok content) jsonLoads =
      Except.ok (_fallback_parse query) ∧
    (_fallback_parse query).clarifications = [fallbackNote] ∧
    (_fallback_parse query).must_have = normalize_skills
      ((((splitRuns isTokenSplitChar query.data).map (fun t => processToken t)).filter
        (fun cl => cl ≠ [] ∧ 1 < cl.length ∧ cl.length < 50)).map
        (fun l => String.mk l)) ∧
    (_fallback_parse query).raw_query = query := by
  refine ⟨?_, rfl, rfl, rfl⟩
  unfold jd_agent_node
  rw [if_neg hq]
  show (match jsonLoads (pyStrip (stripCodeFences content)) with
    | some parsed => Except.ok (specOfParsed parsed query)
    | none => Except.ok (_fallback_parse query)) = Except.ok (_fallback_parse query)
  rw [hj]

/-- Witness for the amended C4 theorem at a concrete input. -/
theorem c4_witness :
    jd_agent_node ("python, 5 years") (Except.ok ("not json at all"))
      (fun _ => none) = Except.ok (_fallback_parse ("python, 5 years")) ∧
    (_fallback_parse ("python, 5 years")).clarifications = [fallbackNote] ∧
    (_fallback_parse ("python, 5 years")).must_have = normalize_skills
      ((((splitRuns isTokenSplitChar ("python, 5 years").data).map
        (fun t => processToken t)).filter
        (fun cl => cl ≠ [] ∧ 1 < cl.length ∧ cl.length < 50)).map
        (fun l => String.mk l)) ∧
    (_fallback_parse ("python, 5 years")).raw_query = ("python, 5 years") :=
  c4_invalid_json_falls_back ("python, 5 years") ("not json at all")
    (fun _ => none) (by decide) rfl

/-! ## `assembly.py` : hard filters and the final response (C1, C6) -/

/-- `ScoreBreakdown` from `app/agents/state.py`. -/
structure ScoreBreakdown where
  rrf_score : ℚ := 0
  rerank_score : ℚ := 0
  dense_rank : Option ℕ := none
  sparse_rank : Option ℕ := none
deriving DecidableEq

/-- `ShortlistResult` from `app/agents/state.py`.  Note: it has NO `name`
field — `assembly_node` passes `name=...` but pydantic silently drops the
unknown keyword. -/
structure ShortlistResult where
  candidate_id : String
  final_score : ℚ := 0
  score_breakdown : ScoreBreakdown := ⟨0, 0, none, none⟩
  evidence_pack : EvidencePack := ⟨(""), [], []⟩
  highlights : List (List Char) := []
  headline : String := ""
  total_yoe : ℤ := 0
  location_country : String := ""
  location_city : String := ""
  summary : String := ""
  matched_skills : List String := []
deriving DecidableEq

/-- `ShortlistResponse` from `app/agents/state.py` (lines 85–92).  Note: it
has NO `match_quality` field — `assembly_node` passes `match_quality=...`
but pydantic silently drops the unknown keyword, so the emitted response
never carries it. -/
structure ShortlistResponse where
  request_id : String
  mission_spec : MissionSpec
  results : List ShortlistResult := []
  suggested_refinements : List String := []
  stage_timings : List (String × ℚ) := []
  total_candidates_found : ℕ := 0
deriving DecidableEq

/-- A profile record as returned by `fetch_candidate_profiles` (the fields
`assembly_node` reads; the unused `skills` dict is omitted). -/
structure Profile where
  candidate_id : String
  name : String := ""
  summary : String := ""
  total_yoe : ℤ := 0
  location_country : String := ""
  location_city : String := ""
  headline : String := ""
deriving DecidableEq

/-- `DOMAIN_KEYWORDS` from `app/agents/assembly.py`. -/
def DOMAIN_KEYWORDS : List (String × List String) :=
  [(("digital marketing"), [("marketing"), ("seo"), ("sem"), ("ppc"),
      ("content"), ("brand"), ("advertising"), ("media"), ("campaign"),
      ("crm"), ("growth")]),
   (("python development"), [("python"), ("django"), ("flask"),
      ("fastapi"), ("backend")]),
   (("data engineering"), [("data engineer"), ("etl"), ("pipeline"),
      ("spark"), ("airflow"), ("warehouse")]),
   (("frontend development"), [("frontend"), ("react"), ("angular"),
      ("vue"), ("css"), ("javascript"), ("typescript"), ("ui")]),
   (("backend development"), [("backend"), ("api"), ("server"),
      ("microservice"), ("nodejs"), ("java"), ("go")]),
   (("machine learning"), [("machine learning"), ("ml"), ("deep learning"),
      ("ai"), ("neural"), ("nlp"), ("computer vision"), ("model")]),
   (("devops"), [("devops"), ("ci/cd"), ("kubernetes"), ("docker"),
      ("terraform"), ("infrastructure"), ("sre")]),
   (("data science"), [("data scien"), ("analytics"), ("statistics"),
      ("jupyter"), ("pandas"), ("tableau"), ("visualization")]),
   (("product management"), [("product manager"), ("roadmap"),
      ("stakeholder"), ("agile"), ("scrum")]),
   (("cloud engineering"), [("cloud"), ("aws"), ("azure"), ("gcp"),
      ("infrastructure")]),
   (("mobile development"), [("mobile"), ("ios"), ("android"), ("swift"),
      ("kotlin"), ("flutter"), ("react native")]),
   (("cybersecurity"), [("security"), ("penetration"), ("vulnerability"),
      ("compliance"), ("soc"), ("firewall")]),
   (("qa engineering"), [("qa"), ("quality assurance"), ("testing"),
      ("automation test"), ("selenium")]),
   (("ui/ux design"), [("design"), ("ux"), ("ui"), ("figma"), ("sketch"),
      ("wireframe"), ("prototype"), ("user research")])]

/-- `str.split()` — whitespace-run split discarding empties. -/
def pyWords (s : String) : List String :=
  ((splitRuns pyIsSpace s.data).filter (fun t => t ≠ [])).map
    (fun l => String.mk l)

/-- `_is_domain_relevant` from `app/agents/assembly.py`. -/
def _is_domain_relevant (headline core_domain : String) : Bool :=
  if core_domain = ("") then true
  else
    let headline_lower := String.mk (pyLowerChars headline.data)
    let domain_lower := String.mk (pyLowerChars core_domain.data)
    if pyIn domain_lower headline_lower then true
    else
      let keywords := ((DOMAIN_KEYWORDS.lookup domain_lower)).getD []
      if keywords = [] then
        (pyWords domain_lower).any
          (fun word => decide (2 < word.length) && pyIn word headline_lower)
      else keywords.any (fun kw => pyIn kw headline_lower)

/-- `profile_map.get(cid, {})`: the dict comprehension keeps the LAST
profile for a duplicated id. -/
def profileLookup (profiles : List Profile) (cid : String) : Option Profile :=
  profiles.reverse.find? (fun p => p.candidate_id = cid)

/-- `_build_result` from `assembly_node` (the `name=` keyword it passes is
not a `ShortlistResult` field and is dropped by pydantic). -/
def _build_result (profiles : List Profile)
    (evidence_packs : List (String × EvidencePack)) (r : RankedResult) :
    ShortlistResult :=
  let cid := r.candidate_id
  let profile := profileLookup profiles cid
  let headline := (profile.map (fun p => p.headline)).getD ("No title available")
  let pack := ((evidence_packs.lookup cid)).getD ⟨cid, [], []⟩
  ⟨cid, r.final_score,
    ⟨r.rrf_score, r.rerank_score, r.dense_rank, r.sparse_rank⟩,
    pack, pack.highlights, headline,
    (profile.map (fun p => p.total_yoe)).getD 0,
    (profile.map (fun p => p.location_country)).getD (""),
    (profile.map (fun p => p.location_city)).getD (""),
    (profile.map (fun p => p.summary)).getD (""),
    r.matched_skills⟩

/-- Pass 1 of `assembly_node`: the hard-filter loop with its
`len(strong_results) >= MAX_RESULTS` break; `n` is the current length of
`strong_results`. -/
def strongPass (cfg : Config) (core_domain : String) (profiles : List Profile)
    (evidence_packs : List (String × EvidencePack)) :
    List RankedResult → ℕ → List ShortlistResult
  | [], _ => []
  | r :: rest, n =>
    let headline := ((profileLookup profiles r.candidate_id).map
      (fun p => p.headline)).getD ("No title available")
    if cfg.HARD_FILTER_ENABLED ∧ r.final_score < cfg.MIN_RELEVANCE_SCORE then
      strongPass cfg core_domain profiles evidence_packs rest n
    else if cfg.HARD_FILTER_ENABLED ∧ core_domain ≠ ("") ∧
        ¬ _is_domain_relevant headline core_domain then
      strongPass cfg core_domain profiles evidence_packs rest n
    else
      let res := _build_result profiles evidence_packs r
      if cfg.MAX_RESULTS ≤ n + 1 then [res]
      else res :: strongPass cfg core_domain profiles evidence_packs rest (n + 1)

/-- `assembly_node` from `app/agents/assembly.py`.

`core_domain := mission_spec_dict.get("core_domain", "")`: the dict is the
`model_dump()` of `MissionSpec` (state.py), which has NO `core_domain`
field, so the lookup ALWAYS yields `""` and the domain filter can never
fire.  `profiles` is the response of the external
`fetch_candidate_profiles` call.  The returned pair is
`(ShortlistResponse, match_quality)`: the code computes `match_quality` and
passes it to `ShortlistResponse(...)`, but the model has no such field and
pydantic drops it, so it reaches the emitted response nowhere — the second
component records the computed-then-discarded value. -/
def assembly_node (cfg : Config) (final_results_raw : List RankedResult)
    (evidence_packs : List (String × EvidencePack))
    (mission_spec : MissionSpec) (request_id : String)
    (stage_timings : List (String × ℚ)) (profiles : List Profile) :
    ShortlistResponse × String :=
  let core_domain : String := ""
  let strong_results :=
    strongPass cfg core_domain profiles evidence_packs final_results_raw 0
  if strong_results = [] ∧ final_results_raw ≠ [] then
    (⟨request_id, mission_spec,
      (final_results_raw.take (min 10 cfg.MAX_RESULTS)).map
        (_build_result profiles evidence_packs),
      mission_spec.clarifications, stage_timings, final_results_raw.length⟩,
     ("weak"))
  else if final_results_raw = [] then
    (⟨request_id, mission_spec, strong_results, mission_spec.clarifications,
      stage_timings, final_results_raw.length⟩, ("none"))
  else
    (⟨request_id, mission_spec, strong_results, mission_spec.clarifications,
      stage_timings, final_results_raw.length⟩, ("strong"))

/-- Claim C1: the match-quality CLASSIFICATION rule of `assembly_node` is as
claimed — `"strong"` iff a candidate survives the hard filters, `"weak"` iff
none survives but the pre-filter list is non-empty (and then at most
`min(10, MAX_RESULTS)` unfiltered top candidates are returned), `"none"` iff
the pre-filter list is empty.  The computed value is the SECOND component of
the model's result: `ShortlistResponse` (state.py) has no `match_quality`
field, so pydantic drops the keyword and the value never reaches the
response — which is why the claim as a whole fails (code bug). -/
theorem c1_match_quality_classification (cfg : Config)
    (fr : List RankedResult) (packs : List (String × EvidencePack))
    (spec : MissionSpec) (rid : String) (timings : List (String × ℚ))
    (profiles : List Profile) :
    ((assembly_node cfg fr packs spec rid timings profiles).2 = ("strong") ↔
      strongPass cfg ("") profiles packs fr 0 ≠ []) ∧
    ((assembly_node cfg fr packs spec rid timings profiles).2 = ("weak") ↔
      (strongPass cfg ("") profiles packs fr 0 = [] ∧ fr ≠ [])) ∧
    ((assembly_node cfg fr packs spec rid timings profiles).2 = ("none") ↔
      fr = []) ∧
    ((assembly_node cfg fr packs spec rid timings profiles).2 = ("weak") →
      (assembly_node cfg fr packs spec rid timings profiles).1.results.length ≤
        min 10 cfg.MAX_RESULTS) := by
  have hws : ¬ (("weak" : String) = ("strong")) := by decide
  have hwn : ¬ (("weak" : String) = ("none")) := by decide
  have hns : ¬ (("none" : String) = ("strong")) := by decide
  have hnw : ¬ (("none" : String) = ("weak")) := by decide
  have hsw : ¬ (("strong" : String) = ("weak")) := by decide
  have hsn : ¬ (("strong" : String) = ("none")) := by decide
  simp only [assembly_node]
  by_cases h1 : strongPass cfg ("") profiles packs fr 0 = [] ∧ fr ≠ []
  · rw [if_pos h1]
    obtain ⟨hs, hf⟩ := h1
    refine ⟨iff_of_false hws (not_not_intro hs), iff_of_true rfl ⟨hs, hf⟩,
      iff_of_false hwn hf, fun _ => ?_⟩
    simp only [List.length_map]
    exact List.length_take_le _ _
  · rw [if_neg h1]
    by_cases h2 : fr = []
    · rw [if_pos h2]
      have hs : strongPass cfg ("") profiles packs fr 0 = [] := by
        rw [h2]
        rfl
      exact ⟨iff_of_false hns (not_not_intro hs),
        iff_of_false hnw (fun hc => hc.2 h2),
        iff_of_true rfl h2, fun hw => absurd hw hnw⟩
    · rw [if_neg h2]
      have hs : strongPass cfg ("") profiles packs fr 0 ≠ [] := by
        intro hc
        exact h1 ⟨hc, h2⟩
      exact ⟨iff_of_true rfl hs, iff_of_false hsw (fun hc => hs hc.1),
        iff_of_false hsn h2, fun hw => absurd hw hsw⟩

/-- The high-scoring candidate of the C6 check. -/
def c6final : List RankedResult := [⟨"c1", 95, 1, 0, none, some 1, [], 0⟩]

/-- A profile whose headline does not match `"digital marketing"`. -/
def c6profiles : List Profile :=
  [⟨"c1", "Dana", "", 5, "", "", "Backend Engineer at Acme"⟩]

/-- A pipeline mission spec for the query `"digital marketing"`:
`MissionSpec` (state.py) has no `core_domain` field to set. -/
def c6spec : MissionSpec :=
  ⟨[], [], [], none, none, [], [], ("digital marketing")⟩

/-- Claim C6: the headline `"Backend Engineer at Acme"` does NOT match the
domain `"digital marketing"` under `_is_domain_relevant`, yet the candidate
lands in the strong results with match quality `"strong"`: `MissionSpec`
(state.py) has no `core_domain` field and no stage writes one, so
`mission_spec_dict.get("core_domain", "")` in `assembly_node` is always
`""` and the domain filter never drops anyone (code bug — spec scenario 2
expects this candidate to be dropped). -/
theorem c6_domain_filter_unreachable :
    _is_domain_relevant ("Backend Engineer at Acme") ("digital marketing") = false ∧
    ((assembly_node defaultConfig c6final [] c6spec ("req-1") []
      c6profiles).1.results.map (fun r => r.candidate_id)) = [("c1")] ∧
    (assembly_node defaultConfig c6final [] c6spec ("req-1") []
      c6profiles).2 = ("strong") := by
  refine ⟨by decide, by decide, by decide⟩
